import Mathlib

/-!
# Lominus: a verification development of the synchronisation engine

Shallow embedding of the Go sources

* `internal/cron/cron.go`  (the body of the callback built by `createJob`),
* `pkg/api/files.go`       (`GetAllFolders`, `GetAllFiles`, `getRootFiles`),
* `pkg/auth/auth.go`       (`RetrieveJwtToken`, `JwtData.IsExpired`),
* `pkg/integrations/telegram/telegram.go` (`GenerateFileUpdatedMessageFormat`).

Conventions of the embedding.

* A Go `string` is a Lean `String`; `fmt.Sprintf` with `%s` verbs is concatenation and
  `strings.Join` is `String.intercalate`.
* A Go slice is a `List`; `append` adds at the end.
* A run-time panic (index out of range, slice bounds out of range) is `none` in an `Option`,
  and `Flow.panic` in the steps of `RetrieveJwtToken`.
* Effects (HTTP requests, the file system, the notification channel) are passed explicitly:
  the callee is a parameter and the calls that were made are recorded in the result.
* Calls to the logger leave no mark on any result and are left out, except the two `Infof`
  lines of the callback, which `Run.logged` records.
-/

namespace Lominus

/-! ## Shared data -/

/-- An instant of `time.Time`, counted in nanoseconds from the zero `Time`; the zero value of
the Go type is the instant `0`. -/
abbrev Time := Int

/-- Go `t.Before(u)`: the instant `t` is strictly before `u`. -/
def Before (t u : Time) : Bool := decide (t < u)

/-- Modelled from the spec: the declaration of the `api.File` value that `cron.go` and
`telegram.go` handle is missing (the `File` of `files.go` has only `Id` and `Name`). The spec's
RemoteFile is `id, name, ancestorPath (ordered folder names from the traversal root),
lastUpdated`; the field names are the ones the two callers use. -/
structure File where
  Id : String
  Name : String
  Ancestors : List String
  LastUpdated : Time
deriving DecidableEq, Repr

/-- A value sent on `notifications.NotificationChannel`. -/
structure Notification where
  Title : String
  Content : String
deriving DecidableEq, Repr

namespace cron

/-! ## `internal/cron/cron.go`: the download loop (lines 194-217) -/

/-- Modelled from the spec: the value type of the map returned by `indexing.Build` is missing;
the spec's LocalIndexEntry carries the `lastUpdated` instant (its relative path is the map
key). The zero value has the zero `Time`. -/
structure IndexEntry where
  LastUpdated : Time
deriving DecidableEq, Repr

/-- The Go map `currentFiles`: a lookup `m[key]` yields `some entry` when the key exists. -/
abbrev IndexMap := String → Option IndexEntry

/-- The collaborators the loop calls, over a state `W` of the outside world:
`filepath.Join`, `appFiles.EnsureDir` and `file.Download(filePath)`, whose result is the
error (`none` for `nil`). -/
structure Env (W : Type) where
  Join : List String → String
  EnsureDir : W → String → W
  Download : W → File → String → W × Option String

/-- One call of `file.Download(filePath)` as the loop made it, with the error it returned. -/
structure Attempt where
  file : File
  filePath : String
  downloadErr : Option String
deriving DecidableEq, Repr

/-- The variables the loop updates, the notifications it sent, the outside world, and the list
of `Download` calls made so far. -/
structure JobState (W : Type) where
  nFilesToUpdate : Nat
  filesUpdated : List File
  notifications : List Notification
  world : W
  attempts : List Attempt

/-- Line 198: `key := fmt.Sprintf("%s/%s", strings.Join(file.Ancestors, "/"), file.Name)`. -/
def key (file : File) : String :=
  String.intercalate "/" file.Ancestors ++ "/" ++ file.Name

/-- Line 199: `currentFiles[key].LastUpdated`, the zero `Time` when the key is absent. -/
def localLastUpdated (currentFiles : IndexMap) (file : File) : Time :=
  ((currentFiles (key file)).getD { LastUpdated := 0 }).LastUpdated

/-- Line 202: `_, exists := currentFiles[key]; !exists || localLastUpdated.Before(platformLastUpdated)`. -/
def needsDownload (currentFiles : IndexMap) (file : File) : Bool :=
  let platformLastUpdated := file.LastUpdated
  let present := (currentFiles (key file)).isSome
  !present || Before (localLastUpdated currentFiles file) platformLastUpdated

/-- Lines 198-216: the body of `for _, file := range lmsFiles`. -/
def downloadStep {W : Type} (env : Env W) (rootSyncDirectory : String)
    (currentFiles : IndexMap) (st : JobState W) (file : File) : JobState W :=
  if needsDownload currentFiles file then
    let fileDirSlice := [rootSyncDirectory] ++ file.Ancestors
    let filePath := env.Join fileDirSlice
    let w1 := env.EnsureDir st.world filePath
    let res := env.Download w1 file filePath
    match res.2 with
    | some e =>
      -- notification, log, `continue`
      { nFilesToUpdate := st.nFilesToUpdate + 1
        filesUpdated := st.filesUpdated
        notifications := st.notifications ++
          [{ Title := "Sync", Content := "Unable to download file: " ++ file.Name }]
        world := res.1
        attempts := st.attempts ++ [{ file := file, filePath := filePath, downloadErr := some e }] }
    | none =>
      { nFilesToUpdate := st.nFilesToUpdate + 1
        filesUpdated := st.filesUpdated ++ [file]
        notifications := st.notifications
        world := res.1
        attempts := st.attempts ++ [{ file := file, filePath := filePath, downloadErr := none }] }
  else st

/-- Lines 194-217: `nFilesToUpdate := 0`, `filesUpdated := []api.File{}` and the loop over
`lmsFiles`, started in world `w` with the notifications `sent` so far. -/
def downloadLoop {W : Type} (env : Env W) (rootSyncDirectory : String)
    (currentFiles : IndexMap) (lmsFiles : List File) (w : W) (sent : List Notification) :
    JobState W :=
  lmsFiles.foldl (downloadStep env rootSyncDirectory currentFiles)
    { nFilesToUpdate := 0, filesUpdated := [], notifications := sent, world := w, attempts := [] }

/-- Follows the spec's words (DownloadOutcome, §3): `{file, succeeded, error (optional)}`, one
per attempted download. -/
structure DownloadOutcome where
  file : File
  succeeded : Bool
  error : Option String
deriving DecidableEq, Repr

/-- Follows the spec's words (Download Orchestrator, §4.4), to be compared with `downloadLoop`:
for each `download` decision, in sequence, ensure the target subdirectory (`rootSyncDirectory`
and the ancestor path) and download the file there; a failure is a failure for that file only,
it is recorded in the outcome list and the orchestration continues with the next file. The
result is the outcome list and the world after the last download. -/
def Execute {W : Type} (env : Env W) (rootSyncDirectory : String) : List File → W →
    List DownloadOutcome × W
  | [], w => ([], w)
  | file :: rest, w =>
    let filePath := env.Join ([rootSyncDirectory] ++ file.Ancestors)
    let res := env.Download (env.EnsureDir w filePath) file filePath
    let later := Execute env rootSyncDirectory rest res.1
    ({ file := file, succeeded := res.2.isNone, error := res.2 } :: later.1, later.2)

/-- A world that answers `Download` from a fixed list of file names that fail. -/
def failing (bad : List String) : Env Unit where
  Join := String.intercalate "/"
  EnsureDir := fun w _ => w
  Download := fun w file _ => (w, if file.Name ∈ bad then some "received non 200 response code" else none)

/-- Sample remote files. -/
def fileX (t : Time) : File := { Id := "1", Name := "x.pdf", Ancestors := ["A"], LastUpdated := t }

/-- A second sample remote file, `y.pdf` under `A`. -/
def fileY (t : Time) : File := { Id := "2", Name := "y.pdf", Ancestors := ["A"], LastUpdated := t }

/-- Sample local index holding `A/x.pdf` at instant 10. -/
def indexA : IndexMap := fun k => if k = "A/x.pdf" then some { LastUpdated := 10 } else none

end cron

/-! ## The summary entries, shared by `telegram.go` line 86 and `cron.go` line 234 -/

/-- The expression `fmt.Sprintf("[%s] %s ", file.Ancestors[0], file.Name)`, written the same
way at both places; `file.Ancestors[0]` panics on an empty `Ancestors`. -/
def fileEntry (file : File) : Option String :=
  match file.Ancestors with
  | [] => none
  | a :: _ => some ("[" ++ a ++ "] " ++ file.Name ++ " ")

/-- Go `s[:n]` on a slice that was grown from the empty literal `[]string{}` by appending one
element at a time. Reslicing is legal up to the capacity; the empty literal has capacity 0 and
the runtime gives capacity 1 and 2 at lengths 1 and 2, so for `n = 3` (the only use) the
expression panics exactly when fewer than `n` elements were appended. -/
def sliceTo (s : List String) (n : Nat) : Option (List String) :=
  if n ≤ s.length then some (s.take n) else none

/-- Lines 91-95 of `telegram.go` and 239-243 of `cron.go`:
`if nFilesUpdated > 4 { strings.Join(append(names[:3], "..."), "\n") } else { strings.Join(names, "\n") }`. -/
def joinNames (nFilesUpdated : Nat) (updatedFilesModulesNames : List String) : Option String :=
  if nFilesUpdated > 4 then
    match sliceTo updatedFilesModulesNames 3 with
    | none => none
    | some firstThree => some (String.intercalate "\n" (firstThree ++ ["..."]))
  else
    some (String.intercalate "\n" updatedFilesModulesNames)

namespace telegram

/-! ## `pkg/integrations/telegram/telegram.go` -/

/-- Lines 85-87: the loop that appends one entry per file to `updatedFilesModulesNames`. -/
def collectNames : List File → List String → Option (List String)
  | [], updatedFilesModulesNames => some updatedFilesModulesNames
  | file :: rest, updatedFilesModulesNames =>
    match fileEntry file with
    | none => none
    | some e => collectNames rest (updatedFilesModulesNames ++ [e])

/-- `GenerateFileUpdatedMessageFormat` (lines 81-98); `none` is a panic. -/
def GenerateFileUpdatedMessageFormat (files : List File) : Option String :=
  let nFilesUpdated := files.length
  match collectNames files [] with
  | none => none
  | some updatedFilesModulesNames =>
    match joinNames nFilesUpdated updatedFilesModulesNames with
    | none => none
    | some updatedFileNamesString => some ("🆕 Files\n" ++ updatedFileNamesString)

/-- `TelegramInfo` (lines 16-19). -/
structure TelegramInfo where
  BotApi : String
  UserId : String
deriving DecidableEq, Repr

end telegram

namespace cron

/-! ## `internal/cron/cron.go`: the summary step (lines 219-254) -/

/-- The chat collaborators of the summary step over a world `W`: the one-file form of
`telegram.GenerateFileUpdatedMessageFormat` that line 225 calls, and `telegram.SendMessage`
with the error it returns (`none` for `nil`). -/
structure Chat (W : Type) where
  GenerateFileUpdatedMessageFormat : File → String
  SendMessage : W → String → String → String → W × Option String

/-- Lines 223-235: the loop over `filesUpdated`. A failed send runs `continue`, which skips the
`append` of line 234. -/
def summaryLoop {W : Type} (chat : Chat W) (telegramInfo : telegram.TelegramInfo)
    (telegramInfoErr : Option String) : List File → W → List String → Option (W × List String)
  | [], w, updatedFilesModulesNames => some (w, updatedFilesModulesNames)
  | file :: rest, w, updatedFilesModulesNames =>
    let sent : W × Option String :=
      if telegramInfoErr.isNone then
        let message := chat.GenerateFileUpdatedMessageFormat file
        chat.SendMessage w telegramInfo.BotApi telegramInfo.UserId message
      else (w, none)
    match sent.2 with
    | some _ => summaryLoop chat telegramInfo telegramInfoErr rest sent.1 updatedFilesModulesNames
    | none =>
      match fileEntry file with
      | none => none
      | some e =>
        summaryLoop chat telegramInfo telegramInfoErr rest sent.1 (updatedFilesModulesNames ++ [e])

/-- Lines 219-254: the notification the step sends on the channel, with the world after the
chat sends; `none` is a panic. `%d` prints the decimal numeral. -/
def summaryStep {W : Type} (chat : Chat W) (telegramInfo : telegram.TelegramInfo)
    (telegramInfoErr : Option String) (nFilesToUpdate : Nat) (filesUpdated : List File) (w : W) :
    Option (W × Notification) :=
  if nFilesToUpdate > 0 then
    let nFilesUpdated := filesUpdated.length
    match summaryLoop chat telegramInfo telegramInfoErr filesUpdated w [] with
    | none => none
    | some (w1, updatedFilesModulesNames) =>
      match joinNames nFilesUpdated updatedFilesModulesNames with
      | none => none
      | some updatedFileNamesString =>
        some (w1, { Title := "Sync: " ++ toString nFilesUpdated ++ "/" ++ toString nFilesToUpdate
                              ++ " updated"
                    Content := updatedFileNamesString })
  else
    some (w, { Title := "Sync", Content := "Your files are up to date" })

/-- A chat whose every send fails (for instance a revoked bot token: a non-200 answer). -/
def chatDown : Chat Unit where
  GenerateFileUpdatedMessageFormat := fun file => "🆕 Files\n" ++ file.Name
  SendMessage := fun w _ _ _ => (w, some "TelegramError: Unauthorized")

/-- A chat whose every send succeeds. -/
def chatUp : Chat Unit where
  GenerateFileUpdatedMessageFormat := fun file => "🆕 Files\n" ++ file.Name
  SendMessage := fun w _ _ _ => (w, none)

/-- Sample Telegram settings. -/
def sampleInfo : telegram.TelegramInfo := { BotApi := "bot", UserId := "42" }

/-- Five updated files of module `A`. -/
def fiveFiles : List File :=
  [ { Id := "1", Name := "a.pdf", Ancestors := ["A"], LastUpdated := 1 },
    { Id := "2", Name := "b.pdf", Ancestors := ["A"], LastUpdated := 1 },
    { Id := "3", Name := "c.pdf", Ancestors := ["A"], LastUpdated := 1 },
    { Id := "4", Name := "d.pdf", Ancestors := ["A"], LastUpdated := 1 },
    { Id := "5", Name := "e.pdf", Ancestors := ["A"], LastUpdated := 1 } ]

end cron

namespace auth

/-! ## `pkg/auth/auth.go` -/

/-- Whether the character list `s` starts with `p`. -/
def startsWith : List Char → List Char → Bool
  | _, [] => true
  | [], _ :: _ => false
  | c :: cs, p :: ps => c == p && startsWith cs ps

/-- Search of `Index`: the first position at or after `i` (the position of the head of the
remaining text) where `substr` starts, or `-1`. -/
def indexFrom (substr : List Char) : List Char → Nat → Int
  | [], i => if startsWith [] substr then (i : Int) else -1
  | c :: cs, i => if startsWith (c :: cs) substr then (i : Int) else indexFrom substr cs (i + 1)

/-- Go `strings.Index(s, substr)`: the index of the first instance of `substr` in `s`, or `-1`
if `substr` is not present in `s`. -/
def Index (s substr : String) : Int :=
  indexFrom substr.data s.data 0

/-- Go slice expression `s[lo:hi]` on a string: it panics (`none`) unless
`0 ≤ lo ≤ hi ≤ len(s)`. -/
def slice (s : String) (lo hi : Int) : Option String :=
  if 0 ≤ lo ∧ lo ≤ hi ∧ hi ≤ (s.length : Int) then
    some ⟨(s.data.drop lo.toNat).take (hi.toNat - lo.toNat)⟩
  else none

/-- How control leaves a stretch of `RetrieveJwtToken`: by a panic, by a `return jwtToken, err`
with a non-nil error, or by going on to the next statement with the value computed. -/
inductive Flow (α : Type) where
  | panic : Flow α
  | returned (jwtToken : String) (err : String) : Flow α
  | next (value : α) : Flow α
deriving DecidableEq, Repr

/-- Lines 83-85 of `RetrieveJwtToken`, on the value of `codeRes2.Header.Get("Location")`:
`indexStart := strings.Index(loc, "code=") + 5`, `indexEnd := strings.Index(loc, "&state=")`,
`code := loc[indexStart:indexEnd]`. There is no `return` in these lines. -/
def extractCode (location : String) : Flow String :=
  let indexStart := Index location "code=" + 5
  let indexEnd := Index location "&state="
  match slice location indexStart indexEnd with
  | none => Flow.panic
  | some code => Flow.next code

/-- `JwtData` (lines 25-28); `Expiry` is an `int64` of Unix seconds. -/
structure JwtData where
  JwtToken : String
  Expiry : Int
deriving DecidableEq, Repr

/-- `EXPIRY_HOURS` (line 46). -/
def EXPIRY_HOURS : Nat := 1

/-- Go `time.Hour`, a `Duration` in nanoseconds. -/
def Hour : Int := 60 * 60 * 1000000000

/-- The largest `Duration`, `1<<63 - 1` nanoseconds. -/
def maxDuration : Int := 2 ^ 63 - 1

/-- The smallest `Duration`, `-1 << 63` nanoseconds. -/
def minDuration : Int := -(2 ^ 63)

/-- The value of an `int64` computation whose exact result is `x`: two's complement
wrap-around into `[-2^63, 2^63)`. -/
def wrap64 (x : Int) : Int := (x + 2 ^ 63) % 2 ^ 64 - 2 ^ 63

/-- Go `unixToInternal`: the seconds from the zero `Time` (January 1, year 1) to the Unix
epoch. -/
def unixToInternal : Int := 62135596800

/-- Go `time.Unix(sec, 0)`: the library stores `Time{0, sec + unixToInternal, Local}`, the sum
computed in `int64`, so it wraps for `sec > 2^63 - 1 - unixToInternal`. The value here is the
instant that this `Time` denotes, in nanoseconds since the Unix epoch. -/
def Unix (sec : Int) : Int := (wrap64 (sec + unixToInternal) - unixToInternal) * 1000000000

/-- Go `time.Until(t)`, that is `t.Sub(time.Now())`, with the reading `now` of the clock in
nanoseconds since the Unix epoch: the duration `t - now`, or the maximum (minimum) duration
when the difference exceeds it. -/
def Until (t now : Int) : Int :=
  if t - now > maxDuration then maxDuration
  else if t - now < minDuration then minDuration
  else t - now

/-- Go `Duration.Hours`:
`hour := d / Hour; nsec := d % Hour; return float64(hour) + float64(nsec)/(60*60*1e9)`.
Integer division and remainder truncate toward zero. A `float64` is the rational it denotes and
`fl` rounds a rational to a `float64`: each conversion and each arithmetic operation rounds its
exact result once. -/
def Hours (fl : ℚ → ℚ) (d : Int) : ℚ :=
  let hour := Int.tdiv d Hour
  let nsec := Int.tmod d Hour
  fl (fl (hour : ℚ) + fl (fl (nsec : ℚ) / fl (60 * 60 * 1000000000)))

/-- `JwtData.IsExpired` (lines 154-157) at clock reading `now`:
`expiry := time.Unix(jwtData.Expiry, 0); return time.Until(expiry).Hours() <= EXPIRY_HOURS`. -/
def JwtData.IsExpired (fl : ℚ → ℚ) (jwtData : JwtData) (now : Int) : Bool :=
  let expiry := Unix jwtData.Expiry
  decide (Hours fl (Until expiry now) ≤ fl (EXPIRY_HOURS : ℚ))

/-- What binary64 rounding is assumed to satisfy: it is monotone, and it leaves unchanged every
`k / 2 ^ e` with `|k| ≤ 2 ^ 53` and `e ≤ 42` (such a number has a 53-bit significand and an
exponent in range). -/
structure Rounding (fl : ℚ → ℚ) : Prop where
  mono : ∀ x y : ℚ, x ≤ y → fl x ≤ fl y
  exact : ∀ (k : Int) (e : Nat), |k| ≤ 2 ^ 53 → e ≤ 42 → fl ((k : ℚ) / 2 ^ e) = (k : ℚ) / 2 ^ e

end auth

namespace api

/-! ## `pkg/api/files.go` -/

/-- `Folder` (lines 12-17). -/
structure Folder where
  Id : String
  Name : String
  Downloadable : Bool
  HasSubFolder : Bool
deriving DecidableEq, Repr

/-- `File` (lines 19-22). -/
structure File where
  Id : String
  Name : String
deriving DecidableEq, Repr

/-- Modelled from the spec: the declaration of `Request` is missing; these are the three fields
that `files.go` sets on every request it builds. -/
structure Request where
  Url : String
  JwtToken : String
  UserAgent : String
deriving DecidableEq, Repr

/-- One element of `rawResponse.Data`, a decoded JSON object of a listing, with the keys that
`files.go` reads (spec: entries with `id`, `name`, `isActive`, `allowUpload`,
`subFolderCount`). `access` tells whether the key "access" exists; `subFolderCount` is the
integer part of the number (the code converts with `int(...)`). A file listing reads only `id`
and `name`. -/
structure Content where
  access : Bool
  id : String
  name : String
  isActive : Bool
  allowUpload : Bool
  subFolderCount : Int
deriving DecidableEq, Repr

/-- The backend as the walk sees it: the constant `USER_AGENT` of the package (declared outside
`files.go`) and `req.GetRawResponse(&rawResponse)`, which yields an error or the `Data` of the
response. -/
structure Remote where
  USER_AGENT : String
  GetRawResponse : Request → Except String (List Content)

/-- `fmt.Sprintf(FOLDER_URL_ENDPOINT, id)` (line 24). -/
def folderUrl (id : String) : String :=
  "https://luminus.nus.edu.sg/v2/api/files/?populate=totalFileCount,subFolderCount,TotalSize&ParentID="
    ++ id

/-- `fmt.Sprintf(FILE_URL_ENDPOINT, id)` (line 25). -/
def fileUrl (id : String) : String :=
  "https://luminus.nus.edu.sg/v2/api/files/" ++ id
    ++ "/file?populate=Creator,lastUpdatedUser,comment"

/-- `Request{Url: fmt.Sprintf(FOLDER_URL_ENDPOINT, id), JwtToken: req.JwtToken, UserAgent: USER_AGENT}`
(lines 60-64, 84-88, 96-100). -/
def folderRequest (r : Remote) (jwtToken : String) (id : String) : Request :=
  { Url := folderUrl id, JwtToken := jwtToken, UserAgent := r.USER_AGENT }

/-- `Request{Url: fmt.Sprintf(FILE_URL_ENDPOINT, id), JwtToken: req.JwtToken, UserAgent: USER_AGENT}`
(lines 111-115). -/
def fileRequest (r : Remote) (jwtToken : String) (id : String) : Request :=
  { Url := fileUrl id, JwtToken := jwtToken, UserAgent := r.USER_AGENT }

/-- Lines 39-44: the `Folder` built from one element of the listing. -/
def newFolder (content : Content) : Folder :=
  { Id := content.id
    Name := content.name
    Downloadable := content.isActive && !content.allowUpload
    HasSubFolder := decide (content.subFolderCount > 0) }

/-- Lines 124-127: the `File` built from one element of the listing. -/
def newFile (content : Content) : File :=
  { Id := content.id, Name := content.name }

/-- `GetAllFolders` (lines 28-49): the folders and the error (`none` for `nil`). -/
def GetAllFolders (r : Remote) (req : Request) : List Folder × Option String :=
  match r.GetRawResponse req with
  | .error err => ([], some err)
  | .ok data =>
    (data.foldl (fun folder content =>
        if content.access then folder ++ [newFolder content] else folder) [], none)

/-- What a walk returns: the files, the error (`none` for `nil`), and the requests it sent
through `GetRawResponse`, in order. -/
structure Walk where
  files : List File
  err : Option String
  requests : List Request
deriving DecidableEq, Repr

/-- The loop `for _, folder := range folders` of lines 59-72 and of lines 95-108 (the same
text): `walk` is the call `newReq.getRootFiles(folder)` with `newReq` built by
`folderRequest`; `files` is the slice built so far and `sent` the requests sent so far. An
error of a call ends the loop with `return files, err`. -/
def walkFolders (r : Remote) (jwtToken : String) (walk : Request → Folder → Option Walk) :
    List Folder → List File → List Request → Option Walk
  | [], files, sent => some { files := files, err := none, requests := sent }
  | folder :: rest, files, sent =>
    let newReq := folderRequest r jwtToken folder.Id
    match walk newReq folder with
    | none => none
    | some sub =>
      match sub.err with
      | some err => some { files := files, err := some err, requests := sent ++ sub.requests }
      | none => walkFolders r jwtToken walk rest (files ++ sub.files) (sent ++ sub.requests)

/-- Lines 83-109 of `getRootFiles`, the block `if folder.HasSubFolder { ... }`, with `walk`
standing for the nested call `newReq.getRootFiles(subFolder)`. The result holds `files` as the
block leaves it; its `err` is set when the block ran `return files, err`. -/
def subFolderFiles (r : Remote) (walk : Request → Folder → Option Walk) (req : Request)
    (folder : Folder) : Option Walk :=
  if folder.HasSubFolder then
    let newReq := folderRequest r req.JwtToken folder.Id
    match GetAllFolders r newReq with
    | (_, some err) => some { files := [], err := some err, requests := [newReq] }
    | (subFolders, none) => walkFolders r req.JwtToken walk subFolders [] [newReq]
  else
    some { files := [], err := none, requests := [] }

/-- Lines 111-131 of `getRootFiles`: the file listing of the folder itself, appended to the
`files` that the block before left in `sub`. -/
def ownFiles (r : Remote) (req : Request) (folder : Folder) (sub : Walk) : Walk :=
  let newReq := fileRequest r req.JwtToken folder.Id
  match r.GetRawResponse newReq with
  | .error err => { files := sub.files, err := some err, requests := sub.requests ++ [newReq] }
  | .ok data =>
    { files := sub.files ++ data.map newFile, err := none, requests := sub.requests ++ [newReq] }

/-- `getRootFiles` (lines 76-132). The recursion follows the backend's answers, so it is
bounded by `fuel`, the number of nested calls allowed; `none` means the bound was reached. -/
def getRootFiles (r : Remote) : Nat → Request → Folder → Option Walk
  | 0, _, _ => none
  | fuel + 1, req, folder =>
    if !folder.Downloadable then
      some { files := [], err := none, requests := [] }
    else
      match subFolderFiles r (fun q f => getRootFiles r fuel q f) req folder with
      | none => none
      | some sub =>
        match sub.err with
        | some _ => some sub
        | none => some (ownFiles r req folder sub)

/-- `GetAllFiles` (lines 51-74), with the bound on nested calls of `getRootFiles`. -/
def GetAllFiles (r : Remote) (fuel : Nat) (req : Request) : Option Walk :=
  match GetAllFolders r req with
  | (_, some err) => some { files := [], err := some err, requests := [req] }
  | (folders, none) =>
    walkFolders r req.JwtToken (fun q f => getRootFiles r fuel q f) folders [] [req]

/-! ### Vocabulary for the statements about the walk -/

/-- The folders that `GetAllFolders` returns for the listing of folder `id`. -/
def children (r : Remote) (jwtToken : String) (id : String) : List Folder :=
  (GetAllFolders r (folderRequest r jwtToken id)).1

/-- The files that the file listing of folder `id` holds (none when the request fails). -/
def listedFiles (r : Remote) (jwtToken : String) (id : String) : List File :=
  match r.GetRawResponse (fileRequest r jwtToken id) with
  | .error _ => []
  | .ok data => data.map newFile

/-- `Descends r jwt top path last`: `path` is the list of folders met going down from `top` to
`last`, each one returned by the folder listing of the one before it (`last` is `top` when the
path is empty). -/
def Descends (r : Remote) (jwtToken : String) : Folder → List Folder → Folder → Prop
  | top, [], last => last = top
  | top, next :: rest, last =>
    next ∈ children r jwtToken top.Id ∧ Descends r jwtToken next rest last

/-- The remote tree below `folder` is finite, of depth less than `n`: no chain of `n` nested
folder listings starts at `folder`. -/
def depthWithin (r : Remote) (jwtToken : String) : Nat → Folder → Bool
  | 0, _ => false
  | n + 1, folder => (children r jwtToken folder.Id).all (fun sub => depthWithin r jwtToken n sub)

/-- No request fails. -/
def NoErrors (r : Remote) : Prop :=
  ∀ req, ∃ data, r.GetRawResponse req = .ok data


/-! ### A sample module tree -/

/-- A folder entry of a listing, with the key "access" present. -/
def entryOf (id name : String) (isActive allowUpload : Bool) (subFolderCount : Int) : Content :=
  { access := true, id := id, name := name, isActive := isActive, allowUpload := allowUpload
    subFolderCount := subFolderCount }

/-- The sample tree: the module root lists `A` (two subfolders `A1`, `A2`), the
submission folder `S` (accepts uploads), the inactive folder `X` (reports 3 subfolders) and
`B`. The file listing of the folder whose id is `bad`, if any, fails. -/
def campus (bad : Option String) : Remote where
  USER_AGENT := "agent"
  GetRawResponse := fun req =>
    if req.Url = "root" then
      .ok [entryOf "A" "Lectures" true false 2, entryOf "S" "Submissions" true true 0,
           entryOf "X" "Archive" false false 3, entryOf "B" "Tutorials" true false 0]
    else if req.Url = folderUrl "A" then
      .ok [entryOf "A1" "Week1" true false 0, entryOf "A2" "Week2" true false 0]
    else if req.Url = folderUrl "X" then
      .ok [entryOf "X1" "Old" true false 0]
    else if bad.map fileUrl = some req.Url then .error "received non 200 response code"
    else if req.Url = fileUrl "A" then .ok [entryOf "f0" "syllabus.pdf" true false 0]
    else if req.Url = fileUrl "A1" then .ok [entryOf "f1" "week1.pdf" true false 0]
    else if req.Url = fileUrl "A2" then .ok [entryOf "f2" "week2.pdf" true false 0]
    else if req.Url = fileUrl "B" then .ok [entryOf "f3" "tutorial.pdf" true false 0]
    else if req.Url = fileUrl "X" then .ok [entryOf "f4" "old.pdf" true false 0]
    else if req.Url = fileUrl "X1" then .ok [entryOf "f5" "older.pdf" true false 0]
    else if req.Url = fileUrl "S" then .ok [entryOf "f6" "essay.pdf" true false 0]
    else .ok []

/-- A second sample tree. The root lists `C`, which reports `subFolderCount = 0` although its
folder listing holds `C1`, and `D`, whose folder listing holds `D1` without the key "access"
and `D2` with it. -/
def annex : Remote where
  USER_AGENT := "agent"
  GetRawResponse := fun req =>
    if req.Url = "root" then
      .ok [entryOf "C" "Readings" true false 0, entryOf "D" "Labs" true false 2]
    else if req.Url = folderUrl "C" then .ok [entryOf "C1" "Extra" true false 0]
    else if req.Url = folderUrl "D" then
      .ok [{ access := false, id := "D1", name := "Hidden", isActive := true
             allowUpload := false, subFolderCount := 0 },
           entryOf "D2" "Open" true false 0]
    else if req.Url = fileUrl "C" then .ok [entryOf "c0" "readings.pdf" true false 0]
    else if req.Url = fileUrl "C1" then .ok [entryOf "c1" "extra.pdf" true false 0]
    else if req.Url = fileUrl "D" then .ok [entryOf "d0" "labs.pdf" true false 0]
    else if req.Url = fileUrl "D1" then .ok [entryOf "d1" "hidden.pdf" true false 0]
    else if req.Url = fileUrl "D2" then .ok [entryOf "d2" "open.pdf" true false 0]
    else .ok []

/-- The request for the listing of the module root. -/
def rootRequest : Request := { Url := "root", JwtToken := "jwt", UserAgent := "agent" }

end api

namespace cron

/-! ## `internal/cron/cron.go`: the callback of `createJob` (lines 105-258) -/

/-- Modelled from the spec: `constants.Platform` is declared outside the sources at hand; the
spec names two backends, and `cron.go` uses `constants.Canvas` and `constants.Luminus`. -/
inductive Platform where
  | Canvas
  | Luminus
deriving DecidableEq, Repr

/-- The token of the Canvas backend as `cron.go` reads it (`tokensData.CanvasToken.CanvasApiToken`). -/
structure CanvasToken where
  CanvasApiToken : String
deriving DecidableEq, Repr

/-- The token of the Luminus backend as `cron.go` reads it (`tokensData.LuminusToken.JwtToken`). -/
structure LuminusToken where
  JwtToken : String
deriving DecidableEq, Repr

/-- The value `auth.TokensData` with the two fields that `cron.go` reads. -/
structure TokensData where
  CanvasToken : CanvasToken
  LuminusToken : LuminusToken
deriving DecidableEq, Repr

/-- The collaborators of the callback other than those of `Env` and `Chat`, over a world `W`
and a type `M` of modules (`api.Module`). `Now` is `time.Now().Format(time.RFC3339)`;
`GetRootFiles` stands for `api.BuildFoldersRequest(token, platform, module)` followed by
`foldersReq.GetRootFiles()`, whose errors the callback only logs; `BuildModulesRequest` yields
the error of building the request (`none` for `nil`). -/
structure Services (W M : Type) where
  Now : W → String
  GetTelegramInfoPath : W → W × Except String String
  LoadTelegramData : W → String → W × telegram.TelegramInfo × Option String
  GetTokensPath : W → W × Except String String
  LoadTokensData : W → String → Bool → W × Except String TokensData
  BuildModulesRequest : String → Platform → Option String
  GetModules : W → String → Platform → W × List M × Option String
  Build : W → String → W × Except String IndexMap
  GetRootFiles : W → String → Platform → M → W × List File × Option String

/-- What one invocation of the callback has done so far: the outside world, the two `Infof`
lines written (`Debug` and `Error` lines are left out), the notifications sent on the channel,
the modules whose folders were walked, the remote files that went through the comparison with
the local index, and the `Download` calls. -/
structure Run (W M : Type) where
  world : W
  logged : List String
  notifications : List Notification
  walked : List (Platform × M)
  compared : List File
  attempts : List Attempt

/-- How a stretch of the callback ends: by a `return`, by reaching its end (the next statement
runs), or by a panic. -/
inductive Exec (σ : Type) where
  | returned (s : σ) : Exec σ
  | next (s : σ) : Exec σ
  | panic : Exec σ

/-- Two stretches of statements in sequence: the second runs only when the first reached its
end. -/
def andThen {σ : Type} (first second : σ → Exec σ) : σ → Exec σ :=
  fun s =>
    match first s with
    | Exec.next s1 => second s1
    | Exec.returned s1 => Exec.returned s1
    | Exec.panic => Exec.panic

/-- `loadTokensData` (lines 262-276). -/
def loadTokensData {W M : Type} (svc : Services W M) (w : W) : W × Except String TokensData :=
  match svc.GetTokensPath w with
  | (w1, .error credsErr) => (w1, .error credsErr)
  | (w1, .ok tokensPath) =>
    match svc.LoadTokensData w1 tokensPath true with
    | (w2, .error tokensErr) => (w2, .error tokensErr)
    | (w2, .ok tokensData) => (w2, .ok tokensData)

/-- `getModules` (lines 280-294): the modules and the error (`none` for `nil`). -/
def getModules {W M : Type} (svc : Services W M) (w : W) (token : String)
    (platform : Platform) : W × List M × Option String :=
  match svc.BuildModulesRequest token platform with
  | some modulesReqErr => (w, [], some modulesReqErr)
  | none => svc.GetModules w token platform

/-- The loops of lines 158-174 and 176-192: for each module, build the folders request, get
its root files (errors are only logged) and append them to `lmsFiles`. -/
def walkModules {W M : Type} (svc : Services W M) (token : String) (platform : Platform) :
    List M → W × List File × List (Platform × M) → W × List File × List (Platform × M)
  | [], acc => acc
  | m :: rest, (w, lmsFiles, walked) =>
    let res := svc.GetRootFiles w token platform m
    walkModules svc token platform rest (res.1, lmsFiles ++ res.2.1, walked ++ [(platform, m)])

/-- Lines 110-256: the statements of the callback that follow the `return` of line 108. -/
def syncBody {W M : Type} (svc : Services W M) (env : Env W) (chat : Chat W)
    (rootSyncDirectory : String) (s : Run W M) : Exec (Run W M) :=
  match svc.GetTelegramInfoPath s.world with
  | (w1, .error _) => Exec.returned { s with world := w1 }
  | (w1, .ok telegramInfoPath) =>
    let tg := svc.LoadTelegramData w1 telegramInfoPath
    let telegramInfo := tg.2.1
    let telegramInfoErr := tg.2.2
    match loadTokensData svc tg.1 with
    | (w3, .error tokensErr) =>
      Exec.returned { s with world := w3
                             notifications := s.notifications ++
                               [{ Title := "Sync", Content := tokensErr }] }
    | (w3, .ok tokensData) =>
      let canvas := getModules svc w3 tokensData.CanvasToken.CanvasApiToken Platform.Canvas
      let canvasModules := canvas.2.1
      let luminus := getModules svc canvas.1 tokensData.LuminusToken.JwtToken Platform.Luminus
      let luminusModules := luminus.2.1
      if rootSyncDirectory = "" then
        Exec.returned { s with world := luminus.1 }
      else
        match svc.Build luminus.1 rootSyncDirectory with
        | (w6, .error _) =>
          Exec.returned { s with world := w6
                                 notifications := s.notifications ++
                                   [{ Title := "Sync"
                                      Content := "Failed to get current downloaded files" }] }
        | (w6, .ok currentFiles) =>
          let afterCanvas := walkModules svc tokensData.CanvasToken.CanvasApiToken
            Platform.Canvas canvasModules (w6, [], s.walked)
          let afterLuminus := walkModules svc tokensData.LuminusToken.JwtToken
            Platform.Luminus luminusModules afterCanvas
          let lmsFiles := afterLuminus.2.1
          let st := downloadLoop env rootSyncDirectory currentFiles lmsFiles afterLuminus.1
            s.notifications
          match summaryStep chat telegramInfo telegramInfoErr st.nFilesToUpdate st.filesUpdated
              st.world with
          | none => Exec.panic
          | some (w8, summary) =>
            Exec.next { world := w8
                        logged := s.logged ++ ["job completed: " ++ svc.Now w8]
                        notifications := st.notifications ++ [summary]
                        walked := afterLuminus.2.2
                        compared := s.compared ++ lmsFiles
                        attempts := s.attempts ++ st.attempts }

/-- Line 107: `logs.Logger.Infof("job started: %s", time.Now().Format(time.RFC3339))`. -/
def logStarted {W M : Type} (svc : Services W M) (s : Run W M) : Exec (Run W M) :=
  Exec.next { s with logged := s.logged ++ ["job started: " ++ svc.Now s.world] }

/-- Line 108: `return`. -/
def returnNow {σ : Type} (s : σ) : Exec σ := Exec.returned s

/-- The function literal of lines 106-257, in the order of its statements: the log line, the
`return`, and the rest. -/
def jobCallback {W M : Type} (svc : Services W M) (env : Env W) (chat : Chat W)
    (rootSyncDirectory : String) : Run W M → Exec (Run W M) :=
  andThen (logStarted svc) (andThen returnNow (syncBody svc env chat rootSyncDirectory))

/-- The job handle that `mainScheduler.Every(frequency).Hours().Do(...)` gives back, as far as
the callback is concerned: the interval in hours and the function to run. -/
structure Job (W M : Type) where
  everyHours : Int
  callback : Run W M → Exec (Run W M)

/-- `createJob` (lines 105-258). -/
def createJob {W M : Type} (svc : Services W M) (env : Env W) (chat : Chat W)
    (rootSyncDirectory : String) (frequency : Int) : Job W M :=
  { everyHours := frequency, callback := jobCallback svc env chat rootSyncDirectory }

/-- The state in which an invocation starts. -/
def fresh {W M : Type} (w : W) : Run W M :=
  { world := w, logged := [], notifications := [], walked := [], compared := [], attempts := [] }

/-- Sample services: tokens load, Luminus has the one module `A` holding `x.pdf` updated at
instant 11, and the local index is `indexA`. -/
def sampleServices : Services Unit String where
  Now := fun _ => "2022-01-01T00:00:00+08:00"
  GetTelegramInfoPath := fun w => (w, .ok "telegram.gob")
  LoadTelegramData := fun w _ => (w, sampleInfo, some "file not found")
  GetTokensPath := fun w => (w, .ok "tokens.gob")
  LoadTokensData := fun w _ _ =>
    (w, .ok { CanvasToken := { CanvasApiToken := "c" }, LuminusToken := { JwtToken := "j" } })
  BuildModulesRequest := fun _ _ => none
  GetModules := fun w _ platform =>
    (w, (match platform with
         | Platform.Canvas => []
         | Platform.Luminus => ["A"]), none)
  Build := fun w _ => (w, .ok indexA)
  GetRootFiles := fun w _ _ _ => (w, [fileX 11], none)

/-- The notifications held by the outcome of a stretch (none after a panic). -/
def notificationsOf {W M : Type} : Exec (Run W M) → List Notification
  | Exec.returned s => s.notifications
  | Exec.next s => s.notifications
  | Exec.panic => []

/-- The `Download` calls held by the outcome of a stretch (none after a panic). -/
def attemptsOf {W M : Type} : Exec (Run W M) → List Attempt
  | Exec.returned s => s.attempts
  | Exec.next s => s.attempts
  | Exec.panic => []

end cron

/-! # Theorems -/

namespace cron

theorem needsDownload_iff (currentFiles : IndexMap) (file : File) :
    needsDownload currentFiles file = true ↔
      (currentFiles (key file) = none ∨
        ∃ e, currentFiles (key file) = some e ∧ e.LastUpdated < file.LastUpdated) := by
  unfold needsDownload localLastUpdated Before
  cases h : currentFiles (key file) with
  | none => simp
  | some e => simp

/-- What the loop leaves behind, from any starting state. -/
theorem foldl_downloadStep {W : Type} (env : Env W) (root : String) (cur : IndexMap)
    (files : List File) (st : JobState W) :
    let r := files.foldl (downloadStep env root cur) st
    r.attempts.map Attempt.file = st.attempts.map Attempt.file ++ files.filter (needsDownload cur) ∧
    r.nFilesToUpdate = st.nFilesToUpdate + (files.filter (needsDownload cur)).length ∧
    (st.filesUpdated = (st.attempts.filter (fun a => a.downloadErr.isNone)).map Attempt.file →
      r.filesUpdated = (r.attempts.filter (fun a => a.downloadErr.isNone)).map Attempt.file) := by
  induction files generalizing st with
  | nil => simp
  | cons f fs ih =>
    simp only [List.foldl_cons]
    have h := ih (downloadStep env root cur st f)
    simp only at h
    obtain ⟨h1, h2, h3⟩ := h
    by_cases hn : needsDownload cur f = true
    · cases hd : (env.Download (env.EnsureDir st.world (env.Join ([root] ++ f.Ancestors))) f
          (env.Join ([root] ++ f.Ancestors))).2 with
      | none =>
        have hs : downloadStep env root cur st f =
            { nFilesToUpdate := st.nFilesToUpdate + 1
              filesUpdated := st.filesUpdated ++ [f]
              notifications := st.notifications
              world := (env.Download (env.EnsureDir st.world (env.Join ([root] ++ f.Ancestors))) f
                (env.Join ([root] ++ f.Ancestors))).1
              attempts := st.attempts ++ [{ file := f, filePath := env.Join ([root] ++ f.Ancestors),
                                            downloadErr := none }] } := by
          simp only [downloadStep, hn, if_true, hd]
        rw [hs] at h1 h2 h3 ⊢
        refine ⟨?_, ?_, ?_⟩
        · rw [h1]; simp [List.filter_cons, hn]
        · rw [h2]; simp [List.filter_cons, hn]; omega
        · intro h0; apply h3; simp [List.filter_append, h0]
      | some e =>
        have hs : downloadStep env root cur st f =
            { nFilesToUpdate := st.nFilesToUpdate + 1
              filesUpdated := st.filesUpdated
              notifications := st.notifications ++
                [{ Title := "Sync", Content := "Unable to download file: " ++ f.Name }]
              world := (env.Download (env.EnsureDir st.world (env.Join ([root] ++ f.Ancestors))) f
                (env.Join ([root] ++ f.Ancestors))).1
              attempts := st.attempts ++ [{ file := f, filePath := env.Join ([root] ++ f.Ancestors),
                                            downloadErr := some e }] } := by
          simp only [downloadStep, hn, if_true, hd]
        rw [hs] at h1 h2 h3 ⊢
        refine ⟨?_, ?_, ?_⟩
        · rw [h1]; simp [List.filter_cons, hn]
        · rw [h2]; simp [List.filter_cons, hn]; omega
        · intro h0; apply h3; simp [List.filter_append, h0]
    · have hs : downloadStep env root cur st f = st := by
        simp only [downloadStep, hn]; rfl
      rw [hs] at h1 h2 h3 ⊢
      refine ⟨?_, ?_, h3⟩
      · rw [h1]; simp [List.filter_cons, hn]
      · rw [h2]; simp [List.filter_cons, hn]

/-- C1: in the download loop of the sync job, a remote file is handed to `Download` exactly
when it is in the remote list and its composite key (ancestors joined by "/", then "/", then
the name) is absent from the local index or the local entry is strictly older than the remote
file; a file whose local and remote instants are equal is skipped. -/
theorem C1_download_iff_absent_or_stale {W : Type} (env : Env W) (rootSyncDirectory : String)
    (currentFiles : IndexMap) (lmsFiles : List File) (w : W) (sent : List Notification)
    (f : File) :
    key f = String.intercalate "/" f.Ancestors ++ "/" ++ f.Name ∧
    (f ∈ (downloadLoop env rootSyncDirectory currentFiles lmsFiles w sent).attempts.map Attempt.file ↔
      f ∈ lmsFiles ∧
        (currentFiles (key f) = none ∨
          ∃ e, currentFiles (key f) = some e ∧ e.LastUpdated < f.LastUpdated)) ∧
    (∀ e, currentFiles (key f) = some e → e.LastUpdated = f.LastUpdated →
      f ∉ (downloadLoop env rootSyncDirectory currentFiles lmsFiles w sent).attempts.map
        Attempt.file) := by
  have h := (foldl_downloadStep env rootSyncDirectory currentFiles lmsFiles
    { nFilesToUpdate := 0, filesUpdated := [], notifications := sent, world := w,
      attempts := [] }).1
  have hmem : f ∈ (downloadLoop env rootSyncDirectory currentFiles lmsFiles w sent).attempts.map
      Attempt.file ↔ f ∈ lmsFiles ∧ needsDownload currentFiles f = true := by
    unfold downloadLoop
    rw [h]
    simp [List.mem_filter]
  refine ⟨rfl, ?_, ?_⟩
  · rw [hmem, needsDownload_iff]
  · intro e he heq hin
    rw [hmem, needsDownload_iff] at hin
    rcases hin.2 with hnone | ⟨e2, he2, hlt⟩
    · rw [he] at hnone; cases hnone
    · rw [he] at he2
      cases he2
      rw [heq] at hlt
      exact lt_irrefl _ hlt

/-- C1 on the scenario of the spec: index `A/x.pdf` at instant 10; the remote file at instant
11 is downloaded, the remote file at instant 10 is not. -/
theorem C1_download_iff_absent_or_stale_witness :
    fileX 11 ∈ (downloadLoop (failing []) "root" indexA [fileX 11, fileX 10] () []).attempts.map
        Attempt.file ∧
    fileX 10 ∉ (downloadLoop (failing []) "root" indexA [fileX 11, fileX 10] () []).attempts.map
        Attempt.file :=
  ⟨((C1_download_iff_absent_or_stale (failing []) "root" indexA [fileX 11, fileX 10] () []
      (fileX 11)).2.1).2 ⟨by decide, Or.inr ⟨{ LastUpdated := 10 }, by decide, by decide⟩⟩,
   (C1_download_iff_absent_or_stale (failing []) "root" indexA [fileX 11, fileX 10] () []
      (fileX 10)).2.2 { LastUpdated := 10 } (by decide) (by decide)⟩

theorem Execute_files {W : Type} (env : Env W) (root : String) (files : List File) (w : W) :
    (Execute env root files w).1.map DownloadOutcome.file = files := by
  induction files generalizing w with
  | nil => rfl
  | cons f fs ih => simp [Execute, ih]

/-- The loop against the orchestration of the spec, from any starting state. -/
theorem foldl_downloadStep_Execute {W : Type} (env : Env W) (root : String) (cur : IndexMap)
    (files : List File) (st : JobState W) :
    (files.foldl (downloadStep env root cur) st).attempts =
      st.attempts ++ (Execute env root (files.filter (needsDownload cur)) st.world).1.map
        (fun o => { file := o.file, filePath := env.Join ([root] ++ o.file.Ancestors)
                    downloadErr := o.error }) ∧
    (files.foldl (downloadStep env root cur) st).world =
      (Execute env root (files.filter (needsDownload cur)) st.world).2 ∧
    (files.foldl (downloadStep env root cur) st).filesUpdated =
      st.filesUpdated ++
        ((Execute env root (files.filter (needsDownload cur)) st.world).1.filter
          (fun o => o.succeeded)).map DownloadOutcome.file ∧
    (files.foldl (downloadStep env root cur) st).notifications =
      st.notifications ++
        ((Execute env root (files.filter (needsDownload cur)) st.world).1.filter
          (fun o => !o.succeeded)).map
          (fun o => { Title := "Sync", Content := "Unable to download file: " ++ o.file.Name }) := by
  induction files generalizing st with
  | nil => simp [Execute]
  | cons f fs ih =>
    simp only [List.foldl_cons]
    obtain ⟨h1, h2, h3, h4⟩ := ih (downloadStep env root cur st f)
    by_cases hn : needsDownload cur f = true
    · cases hd : (env.Download (env.EnsureDir st.world (env.Join ([root] ++ f.Ancestors))) f
          (env.Join ([root] ++ f.Ancestors))).2 with
      | none =>
        have hs : downloadStep env root cur st f =
            { nFilesToUpdate := st.nFilesToUpdate + 1
              filesUpdated := st.filesUpdated ++ [f]
              notifications := st.notifications
              world := (env.Download (env.EnsureDir st.world (env.Join ([root] ++ f.Ancestors))) f
                (env.Join ([root] ++ f.Ancestors))).1
              attempts := st.attempts ++ [{ file := f, filePath := env.Join ([root] ++ f.Ancestors),
                                            downloadErr := none }] } := by
          simp only [downloadStep, hn, if_true, hd]
        rw [hs] at h1 h2 h3 h4 ⊢
        rw [h1, h2, h3, h4]
        have hd2 := hd
        simp only [List.singleton_append] at hd2
        simp [List.filter_cons, hn, Execute, hd2]
      | some e =>
        have hs : downloadStep env root cur st f =
            { nFilesToUpdate := st.nFilesToUpdate + 1
              filesUpdated := st.filesUpdated
              notifications := st.notifications ++
                [{ Title := "Sync", Content := "Unable to download file: " ++ f.Name }]
              world := (env.Download (env.EnsureDir st.world (env.Join ([root] ++ f.Ancestors))) f
                (env.Join ([root] ++ f.Ancestors))).1
              attempts := st.attempts ++ [{ file := f, filePath := env.Join ([root] ++ f.Ancestors),
                                            downloadErr := some e }] } := by
          simp only [downloadStep, hn, if_true, hd]
        rw [hs] at h1 h2 h3 h4 ⊢
        rw [h1, h2, h3, h4]
        have hd2 := hd
        simp only [List.singleton_append] at hd2
        simp [List.filter_cons, hn, Execute, hd2]
    · have hs : downloadStep env root cur st f = st := by
        simp only [downloadStep, hn]; rfl
      rw [hs] at h1 h2 h3 h4 ⊢
      rw [h1, h2, h3, h4]
      simp [List.filter_cons, hn]

/-- C5: the download loop does what the orchestration of the spec does on the files that need
downloading. `Download` is called once for each such file, in list order and in the world the
call before it left, whatever the earlier calls returned; the error recorded for a call is the
one `Download` returned; `nFilesToUpdate` counts the calls; `filesUpdated` is exactly the files
whose `Download` returned no error, in the order of the remote list; each failed call sends its
notification and the loop goes on. After any list of files, a further file that needs
downloading is handed to `Download` in the world the loop has reached. -/
theorem C5_every_needed_file_attempted_once {W : Type} (env : Env W)
    (rootSyncDirectory : String) (currentFiles : IndexMap) (lmsFiles : List File) (w : W)
    (sent : List Notification) :
    (downloadLoop env rootSyncDirectory currentFiles lmsFiles w sent).attempts =
      (Execute env rootSyncDirectory (lmsFiles.filter (needsDownload currentFiles)) w).1.map
        (fun o => { file := o.file
                    filePath := env.Join ([rootSyncDirectory] ++ o.file.Ancestors)
                    downloadErr := o.error }) ∧
    (Execute env rootSyncDirectory (lmsFiles.filter (needsDownload currentFiles)) w).1.map
        DownloadOutcome.file = lmsFiles.filter (needsDownload currentFiles) ∧
    (downloadLoop env rootSyncDirectory currentFiles lmsFiles w sent).world =
      (Execute env rootSyncDirectory (lmsFiles.filter (needsDownload currentFiles)) w).2 ∧
    (downloadLoop env rootSyncDirectory currentFiles lmsFiles w sent).nFilesToUpdate =
      (lmsFiles.filter (needsDownload currentFiles)).length ∧
    (downloadLoop env rootSyncDirectory currentFiles lmsFiles w sent).filesUpdated =
      ((Execute env rootSyncDirectory (lmsFiles.filter (needsDownload currentFiles)) w).1.filter
        (fun o => o.succeeded)).map DownloadOutcome.file ∧
    List.Sublist (downloadLoop env rootSyncDirectory currentFiles lmsFiles w sent).filesUpdated
      lmsFiles ∧
    (downloadLoop env rootSyncDirectory currentFiles lmsFiles w sent).notifications =
      sent ++
        ((Execute env rootSyncDirectory (lmsFiles.filter (needsDownload currentFiles)) w).1.filter
          (fun o => !o.succeeded)).map
          (fun o => { Title := "Sync", Content := "Unable to download file: " ++ o.file.Name }) ∧
    (∀ f : File, needsDownload currentFiles f = true →
      (downloadLoop env rootSyncDirectory currentFiles (lmsFiles ++ [f]) w sent).attempts =
        (downloadLoop env rootSyncDirectory currentFiles lmsFiles w sent).attempts ++
          [{ file := f
             filePath := env.Join ([rootSyncDirectory] ++ f.Ancestors)
             downloadErr :=
               (env.Download
                 (env.EnsureDir
                   (downloadLoop env rootSyncDirectory currentFiles lmsFiles w sent).world
                   (env.Join ([rootSyncDirectory] ++ f.Ancestors)))
                 f (env.Join ([rootSyncDirectory] ++ f.Ancestors))).2 }]) := by
  have h := foldl_downloadStep_Execute env rootSyncDirectory currentFiles lmsFiles
    { nFilesToUpdate := 0, filesUpdated := [], notifications := sent, world := w,
      attempts := [] }
  simp only [List.nil_append] at h
  obtain ⟨h1, h2, h3, h4⟩ := h
  have hn := (foldl_downloadStep env rootSyncDirectory currentFiles lmsFiles
    { nFilesToUpdate := 0, filesUpdated := [], notifications := sent, world := w,
      attempts := [] }).2.1
  simp only [Nat.zero_add] at hn
  have hfiles := Execute_files env rootSyncDirectory
    (lmsFiles.filter (needsDownload currentFiles)) w
  refine ⟨h1, hfiles, h2, hn, h3, ?_, h4, ?_⟩
  · have h3 : (downloadLoop env rootSyncDirectory currentFiles lmsFiles w sent).filesUpdated =
        ((Execute env rootSyncDirectory (lmsFiles.filter (needsDownload currentFiles)) w).1.filter
          (fun o => o.succeeded)).map DownloadOutcome.file := h3
    rw [h3]
    have hs : List.Sublist
        (((Execute env rootSyncDirectory (lmsFiles.filter (needsDownload currentFiles))
            w).1.filter (fun o => o.succeeded)).map DownloadOutcome.file)
        ((Execute env rootSyncDirectory (lmsFiles.filter (needsDownload currentFiles))
            w).1.map DownloadOutcome.file) :=
      List.Sublist.map _ (List.filter_sublist _)
    rw [hfiles] at hs
    exact hs.trans (List.filter_sublist _)
  · intro f hf
    unfold downloadLoop
    rw [List.foldl_append]
    simp only [List.foldl_cons, List.foldl_nil]
    cases hd : (env.Download
        (env.EnsureDir
          (lmsFiles.foldl (downloadStep env rootSyncDirectory currentFiles)
            { nFilesToUpdate := 0, filesUpdated := [], notifications := sent, world := w,
              attempts := [] }).world
          (env.Join ([rootSyncDirectory] ++ f.Ancestors)))
        f (env.Join ([rootSyncDirectory] ++ f.Ancestors))).2 with
    | none => simp only [downloadStep, hf, if_true, hd]
    | some e => simp only [downloadStep, hf, if_true, hd]

/-- C5 on two files that both need downloading, where `Download` fails for the first
(`x.pdf`): both are attempted, the failure is recorded, and `y.pdf` is the updated list. -/
theorem C5_every_needed_file_attempted_once_witness :
    (downloadLoop (failing ["x.pdf"]) "root" indexA [fileX 11, fileY 5] () []).attempts =
      [{ file := fileX 11, filePath := "root/A"
         downloadErr := some "received non 200 response code" },
       { file := fileY 5, filePath := "root/A", downloadErr := none }] ∧
    (downloadLoop (failing ["x.pdf"]) "root" indexA [fileX 11, fileY 5] () []).filesUpdated =
      [fileY 5] :=
  ⟨(C5_every_needed_file_attempted_once (failing ["x.pdf"]) "root" indexA
      [fileX 11, fileY 5] () []).1.trans (by decide),
   (C5_every_needed_file_attempted_once (failing ["x.pdf"]) "root" indexA
      [fileX 11, fileY 5] () []).2.2.2.2.1.trans (by decide)⟩

end cron

/-! ## The change summary -/

theorem intercalate_single (sep s : String) : String.intercalate sep [s] = s := rfl

theorem fileEntry_of_ancestors (file : File) (h : file.Ancestors ≠ []) :
    fileEntry file = some ("[" ++ file.Ancestors.headD "" ++ "] " ++ file.Name ++ " ") := by
  unfold fileEntry
  cases hA : file.Ancestors with
  | nil => exact absurd hA h
  | cons a rest => simp

namespace telegram

theorem collectNames_eq (files : List File) (acc : List String)
    (h : ∀ f ∈ files, f.Ancestors ≠ []) :
    collectNames files acc =
      some (acc ++ files.map
        (fun f => "[" ++ f.Ancestors.headD "" ++ "] " ++ f.Name ++ " ")) := by
  induction files generalizing acc with
  | nil => simp [collectNames]
  | cons f fs ih =>
    have hf := fileEntry_of_ancestors f (h f (List.mem_cons_self _ _))
    have hfs : ∀ g ∈ fs, g.Ancestors ≠ [] := fun g hg => h g (List.mem_cons_of_mem _ hg)
    simp only [collectNames, hf]
    rw [ih _ hfs]
    simp

/-- C3: for files that all have an ancestor, `GenerateFileUpdatedMessageFormat` returns the
header line "🆕 Files" followed by the entries in input order, one per line: with more than 4
files the first 3 entries and then one line "...", with 4 or fewer every entry and no
ellipsis line. -/
theorem C3_message_header_then_entries (files : List File)
    (h : ∀ f ∈ files, f.Ancestors ≠ []) :
    GenerateFileUpdatedMessageFormat files =
      some ("🆕 Files\n" ++ String.intercalate "\n"
        (if files.length > 4 then
          (files.take 3).map (fun f => "[" ++ f.Ancestors.headD "" ++ "] " ++ f.Name ++ " ")
            ++ ["..."]
         else
          files.map (fun f => "[" ++ f.Ancestors.headD "" ++ "] " ++ f.Name ++ " "))) := by
  unfold GenerateFileUpdatedMessageFormat
  rw [collectNames_eq files [] h]
  simp only [List.nil_append]
  by_cases hlen : files.length > 4
  · have h3 : 3 ≤ (files.map
        (fun f => "[" ++ f.Ancestors.headD "" ++ "] " ++ f.Name ++ " ")).length := by
      rw [List.length_map]; omega
    simp only [joinNames, hlen, if_true, sliceTo, h3, List.map_take]
  · simp only [joinNames, hlen, if_false]

/-- C3 on five files: three entries and the ellipsis line. -/
theorem C3_message_header_then_entries_witness :
    GenerateFileUpdatedMessageFormat cron.fiveFiles =
      some "🆕 Files\n[A] a.pdf \n[A] b.pdf \n[A] c.pdf \n..." :=
  (C3_message_header_then_entries cron.fiveFiles (by decide)).trans (by decide)

end telegram

namespace cron

/-- C9 (evaluation of the code): five files were downloaded, Telegram is configured and every
send fails; no entry is appended, `nFilesUpdated > 4` holds, and `updatedFilesModulesNames[:3]`
panics on the empty slice. With two downloaded files and failing sends the step does not panic
but the content names none of the two files. -/
theorem C9_summary_panics_when_sends_fail :
    summaryStep chatDown sampleInfo none 5 fiveFiles () = none ∧
    (summaryStep chatDown sampleInfo none 2 (fiveFiles.take 2) ()).map (fun r => r.2.Content)
      = some "" := by
  constructor <;> decide

/-- C10 as stated fails: the entry of the file `x.pdf` under `A` is "[A] x.pdf " with a space
after the name, in the entry itself, in the Telegram message and in the notification of the
summary step. -/
theorem C10_entry_without_trailing_space_fails :
    fileEntry (fileX 0) ≠ some ("[" ++ "A" ++ "] " ++ "x.pdf") ∧
    telegram.GenerateFileUpdatedMessageFormat [fileX 0] ≠
      some ("🆕 Files\n" ++ ("[" ++ "A" ++ "] " ++ "x.pdf")) ∧
    (summaryStep chatUp sampleInfo none 1 [fileX 0] ()).map (fun r => r.2.Content) ≠
      some ("[" ++ "A" ++ "] " ++ "x.pdf") := by
  refine ⟨?_, ?_, ?_⟩ <;> decide

/-- C10 (amended): for a file with at least one ancestor the entry is "[" + first ancestor +
"] " + name + " " (one space after the name): as the entry itself, as the single line of the
Telegram message for that file, and as the content the summary step sends for that file when
its chat send does not fail. -/
theorem C10_entry_has_trailing_space {W : Type} (chat : Chat W) (info : telegram.TelegramInfo)
    (w : W) (file : File) (a : String) (rest : List String) (h : file.Ancestors = a :: rest) :
    fileEntry file = some ("[" ++ a ++ "] " ++ file.Name ++ " ") ∧
    telegram.GenerateFileUpdatedMessageFormat [file] =
      some ("🆕 Files\n" ++ ("[" ++ a ++ "] " ++ file.Name ++ " ")) ∧
    (summaryStep chat info (some "telegram data not found") 1 [file] w).map
      (fun r => r.2.Content) = some ("[" ++ a ++ "] " ++ file.Name ++ " ") ∧
    ((chat.SendMessage w info.BotApi info.UserId
        (chat.GenerateFileUpdatedMessageFormat file)).2 = none →
      (summaryStep chat info none 1 [file] w).map (fun r => r.2.Content) =
        some ("[" ++ a ++ "] " ++ file.Name ++ " ")) := by
  have he : fileEntry file = some ("[" ++ a ++ "] " ++ file.Name ++ " ") := by
    simp [fileEntry, h]
  refine ⟨he, ?_, ?_, ?_⟩
  · simp [telegram.GenerateFileUpdatedMessageFormat, telegram.collectNames, he, joinNames,
      intercalate_single]
  · simp [summaryStep, summaryLoop, he, joinNames, intercalate_single]
  · intro hs
    simp [summaryStep, summaryLoop, he, joinNames, intercalate_single, hs]

/-- C10 (amended) on the file `x.pdf` under `A`. -/
theorem C10_entry_has_trailing_space_witness :
    fileEntry (fileX 0) = some "[A] x.pdf " ∧
    telegram.GenerateFileUpdatedMessageFormat [fileX 0] = some "🆕 Files\n[A] x.pdf " :=
  ⟨(C10_entry_has_trailing_space chatUp sampleInfo () (fileX 0) "A" [] (by decide)).1,
   (C10_entry_has_trailing_space chatUp sampleInfo () (fileX 0) "A" [] (by decide)).2.1⟩

end cron

namespace auth

/-! ## The code-extraction step and the expiry check -/

theorem indexFrom_ge (substr : List Char) (l : List Char) (i : Nat) :
    indexFrom substr l i = -1 ∨ (i : Int) ≤ indexFrom substr l i := by
  induction l generalizing i with
  | nil =>
    unfold indexFrom
    split_ifs
    · exact Or.inr (le_refl _)
    · exact Or.inl rfl
  | cons c cs ih =>
    unfold indexFrom
    split_ifs
    · exact Or.inr (le_refl _)
    · rcases ih (i + 1) with h | h
      · exact Or.inl h
      · refine Or.inr (le_trans ?_ h)
        push_cast
        omega

/-- Whenever the marker "&state=" is missing the slice bound `indexEnd` is `-1` and the
extraction panics. -/
theorem extractCode_panics_without_state (location : String)
    (h : Index location "&state=" = -1) : extractCode location = Flow.panic := by
  have hs : slice location (Index location "code=" + 5) (-1) = none := by
    unfold slice
    rw [if_neg]
    intro hc
    rcases indexFrom_ge "code=".data location.data 0 with h1 | h1 <;>
      · unfold Index at hc
        omega
  simp only [extractCode, h, hs]

/-- C2 (evaluation of the code): an empty `Location` value has neither marker, and the slice
expression of line 85 panics (`""[4:-1]`); a `Location` that lacks "code=" but carries
"&state=" makes the step go on with the text from byte 4 up to "&state=" as the code. In
neither case does the step return an error. -/
theorem C2_missing_marker_panics_or_goes_on :
    Index "" "code=" = -1 ∧ Index "" "&state=" = -1 ∧ extractCode "" = Flow.panic ∧
    Index "https://luminus.nus.edu.sg/auth/callback?error=access_denied&state=V6E9" "code=" = -1 ∧
    extractCode "https://luminus.nus.edu.sg/auth/callback?error=access_denied&state=V6E9" =
      Flow.next "s://luminus.nus.edu.sg/auth/callback?error=access_denied" := by
  refine ⟨?_, ?_, ?_, ?_, ?_⟩ <;> decide

theorem Rounding.int {fl : ℚ → ℚ} (h : Rounding fl) (k : Int) (hk : |k| ≤ 2 ^ 53) :
    fl (k : ℚ) = (k : ℚ) := by
  have := h.exact k 0 hk (Nat.zero_le _)
  simpa using this

theorem Until_le_Hour (t now : Int) : Until t now ≤ Hour ↔ t - now ≤ Hour := by
  unfold Until maxDuration minDuration Hour
  norm_num
  split_ifs <;> omega

theorem Until_bounds (t now : Int) : -(2 ^ 63) ≤ Until t now ∧ Until t now ≤ 2 ^ 63 := by
  unfold Until maxDuration minDuration
  norm_num
  split_ifs <;> constructor <;> omega

/-- Truncated division by `Hour`, in linear form. -/
theorem tdiv_tmod_Hour (d : Int) :
    3600000000000 * Int.tdiv d Hour + Int.tmod d Hour = d ∧
    (0 ≤ d → 0 ≤ Int.tdiv d Hour ∧ 0 ≤ Int.tmod d Hour ∧ Int.tmod d Hour < 3600000000000) ∧
    (d < 0 → Int.tdiv d Hour ≤ 0 ∧ Int.tmod d Hour ≤ 0 ∧ -3600000000000 < Int.tmod d Hour) := by
  have hH : Hour = 3600000000000 := by unfold Hour; norm_num
  have heq := Int.tdiv_add_tmod d Hour
  rw [hH] at heq ⊢
  refine ⟨heq, ?_, ?_⟩
  · intro hd
    have h1 : Int.tdiv d 3600000000000 = d / 3600000000000 :=
      Int.tdiv_eq_ediv hd (by norm_num)
    rw [h1] at heq ⊢
    omega
  · intro hd
    have h1 : Int.tdiv (-d) 3600000000000 = (-d) / 3600000000000 :=
      Int.tdiv_eq_ediv (by omega) (by norm_num)
    have h2 : Int.tdiv d 3600000000000 = -((-d) / 3600000000000) := by
      rw [← h1, Int.neg_tdiv, neg_neg]
    rw [h2] at heq ⊢
    omega

theorem Hours_le_one_iff {fl : ℚ → ℚ} (hfl : Rounding fl) (d : Int)
    (hlo : -(2 ^ 63) ≤ d) (hhi : d ≤ 2 ^ 63) :
    Hours fl d ≤ fl (EXPIRY_HOURS : ℚ) ↔ d ≤ 3600000000000 := by
  obtain ⟨heq, hpos, hneg⟩ := tdiv_tmod_Hour d
  norm_num at hlo hhi
  have hhour : |Int.tdiv d Hour| ≤ 2 ^ 53 := by
    norm_num
    rw [abs_le]
    by_cases hd : 0 ≤ d
    · have := hpos hd
      constructor <;> omega
    · have := hneg (by omega)
      constructor <;> omega
  have hnsec : |Int.tmod d Hour| ≤ 2 ^ 53 := by
    norm_num
    rw [abs_le]
    by_cases hd : 0 ≤ d
    · have := hpos hd
      constructor <;> omega
    · have := hneg (by omega)
      constructor <;> omega
  have f0 : fl 0 = 0 := by simpa using hfl.int 0 (by norm_num)
  have f1 : fl 1 = 1 := by simpa using hfl.int 1 (by norm_num)
  have f2 : fl 2 = 2 := by simpa using hfl.int 2 (by norm_num)
  have fC : fl (60 * 60 * 1000000000) = 3600000000000 := by
    have := hfl.int 3600000000000 (by norm_num)
    norm_num at this ⊢
    exact this
  have fe : fl (1 / 2 ^ 42) = 1 / 2 ^ 42 := by
    simpa using hfl.exact 1 42 (by norm_num) (le_refl _)
  have fe1 : fl (4398046511105 / 2 ^ 42) = 4398046511105 / 2 ^ 42 := by
    have := hfl.exact 4398046511105 42 (by norm_num) (le_refl _)
    push_cast at this
    exact this
  have hH : Hours fl d =
      fl ((Int.tdiv d Hour : ℚ) + fl ((Int.tmod d Hour : ℚ) / 3600000000000)) := by
    simp only [Hours, hfl.int _ hhour, hfl.int _ hnsec, fC]
  have hE : fl (EXPIRY_HOURS : ℚ) = 1 := by
    simp only [EXPIRY_HOURS, Nat.cast_one, f1]
  rw [hH, hE]
  constructor
  · intro hle
    by_contra hgt
    have hd : 0 ≤ d := by omega
    obtain ⟨h1, h2, h3⟩ := hpos hd
    have hq0 : (0 : ℚ) ≤ fl ((Int.tmod d Hour : ℚ) / 3600000000000) := by
      have h2q : (0 : ℚ) ≤ (Int.tmod d Hour : ℚ) := by exact_mod_cast h2
      have := hfl.mono 0 ((Int.tmod d Hour : ℚ) / 3600000000000) (by positivity)
      rwa [f0] at this
    by_cases hh : 2 ≤ Int.tdiv d Hour
    · have hhq : (2 : ℚ) ≤ (Int.tdiv d Hour : ℚ) := by exact_mod_cast hh
      have := hfl.mono 2 _ (by linarith :
        (2 : ℚ) ≤ (Int.tdiv d Hour : ℚ) + fl ((Int.tmod d Hour : ℚ) / 3600000000000))
      rw [f2] at this
      linarith
    · have hone : Int.tdiv d Hour = 1 := by omega
      have hn1 : 1 ≤ Int.tmod d Hour := by omega
      have hn1q : (1 : ℚ) ≤ (Int.tmod d Hour : ℚ) := by exact_mod_cast hn1
      have hstep : (1 : ℚ) / 2 ^ 42 ≤ (Int.tmod d Hour : ℚ) / 3600000000000 := by
        rw [div_le_div_iff₀ (by positivity) (by positivity)]
        norm_num
        linarith
      have hq := hfl.mono _ _ hstep
      rw [fe] at hq
      have hsum : (4398046511105 : ℚ) / 2 ^ 42 ≤
          (Int.tdiv d Hour : ℚ) + fl ((Int.tmod d Hour : ℚ) / 3600000000000) := by
        rw [hone]
        have : (4398046511105 : ℚ) / 2 ^ 42 = 1 + 1 / 2 ^ 42 := by norm_num
        rw [this]
        push_cast
        linarith
      have := hfl.mono _ _ hsum
      rw [fe1] at this
      have hlt : (1 : ℚ) < (4398046511105 : ℚ) / 2 ^ 42 := by norm_num
      linarith
  · intro hle
    have hsum : (Int.tdiv d Hour : ℚ) + fl ((Int.tmod d Hour : ℚ) / 3600000000000) ≤ 1 := by
      by_cases hh : 1 ≤ Int.tdiv d Hour
      · have hd : 0 ≤ d := by
          by_contra hc
          have := hneg (by omega)
          omega
        obtain ⟨h1, h2, h3⟩ := hpos hd
        have hone : Int.tdiv d Hour = 1 := by omega
        have hz : Int.tmod d Hour = 0 := by omega
        rw [hone, hz]
        norm_num
        rw [f0]
      · have hh0 : (Int.tdiv d Hour : ℚ) ≤ 0 := by
          have : Int.tdiv d Hour ≤ 0 := by omega
          exact_mod_cast this
        have hn : Int.tmod d Hour ≤ 3600000000000 := by
          by_cases hd : 0 ≤ d
          · have := hpos hd; omega
          · have := hneg (by omega); omega
        have hnq : (Int.tmod d Hour : ℚ) ≤ 3600000000000 := by exact_mod_cast hn
        have hstep : (Int.tmod d Hour : ℚ) / 3600000000000 ≤ 1 := by
          rw [div_le_one (by norm_num)]
          exact hnq
        have hq := hfl.mono _ _ hstep
        rw [f1] at hq
        linarith
    have := hfl.mono _ _ hsum
    rwa [f1] at this

theorem IsExpired_iff (fl : ℚ → ℚ) (hfl : Rounding fl) (jwtData : JwtData) (now : Int) :
    jwtData.IsExpired fl now = true ↔ Unix jwtData.Expiry - now ≤ 3600000000000 := by
  obtain ⟨hlo, hhi⟩ := Until_bounds (Unix jwtData.Expiry) now
  have h := Hours_le_one_iff hfl (Until (Unix jwtData.Expiry) now) hlo hhi
  have hu := Until_le_Hour (Unix jwtData.Expiry) now
  have hH : Hour = 3600000000000 := by unfold Hour; norm_num
  rw [hH] at hu
  unfold JwtData.IsExpired
  simp only [decide_eq_true_eq]
  rw [h, hu]

theorem Unix_in_range (sec : Int) (hlo : -(2 ^ 63) ≤ sec)
    (hhi : sec ≤ 2 ^ 63 - 1 - 62135596800) : Unix sec = sec * 1000000000 := by
  unfold Unix wrap64 unixToInternal
  norm_num at hlo hhi ⊢
  omega

/-- C6 as stated fails: the largest `int64` is a possible stored expiry; `time.Unix` wraps it
to an instant far in the past, so at clock reading 0 `IsExpired` returns true although expiry
minus now is far more than one hour. -/
theorem C6_expired_at_largest_expiry :
    JwtData.IsExpired id { JwtToken := "t", Expiry := 9223372036854775807 } 0 = true ∧
    ¬ ((9223372036854775807 : Int) * 1000000000 - 0 ≤ 3600 * 1000000000) := by
  constructor
  · rw [IsExpired_iff id ⟨fun _ _ h => h, fun _ _ _ _ => rfl⟩]
    decide
  · decide

/-- C6 (amended): for every stored expiry (an `int64` of Unix seconds) that is at most
`2^63 - 1 - 62135596800`, the largest second that `time.Unix` represents, and every clock
reading (nanoseconds since the Unix epoch), `IsExpired` returns true exactly when expiry minus
now is at most one hour, that is 3600 seconds: a token counts as expired during its last hour
and as valid whenever more than an hour remains. The floating-point steps of `Duration.Hours`
round by any `fl` that is monotone and exact on the 53-bit numbers used. -/
theorem C6_expired_iff_at_most_one_hour (fl : ℚ → ℚ) (hfl : Rounding fl) (jwtData : JwtData)
    (now : Int) (hlo : -(2 ^ 63) ≤ jwtData.Expiry)
    (hhi : jwtData.Expiry ≤ 2 ^ 63 - 1 - 62135596800) :
    jwtData.IsExpired fl now = true ↔
      jwtData.Expiry * 1000000000 - now ≤ 3600 * 1000000000 := by
  rw [IsExpired_iff fl hfl, Unix_in_range jwtData.Expiry hlo hhi]
  norm_num

/-- C6 (amended) with exact arithmetic as the rounding: a token expiring at second 7200 read at
second 3600 (exactly one hour left) is expired, and the same token read one nanosecond earlier
is not. -/
theorem C6_expired_iff_at_most_one_hour_witness :
    JwtData.IsExpired id { JwtToken := "t", Expiry := 7200 } 3600000000000 = true ∧
    ¬ JwtData.IsExpired id { JwtToken := "t", Expiry := 7200 } 3599999999999 = true :=
  ⟨(C6_expired_iff_at_most_one_hour id ⟨fun _ _ h => h, fun _ _ _ _ => rfl⟩
      { JwtToken := "t", Expiry := 7200 } 3600000000000 (by decide) (by decide)).2 (by decide),
   fun h => absurd ((C6_expired_iff_at_most_one_hour id ⟨fun _ _ h => h, fun _ _ _ _ => rfl⟩
      { JwtToken := "t", Expiry := 7200 } 3599999999999 (by decide) (by decide)).1 h)
      (by decide)⟩

end auth

namespace api

/-! ## The tree walk -/

theorem foldl_newFolder (data : List Content) (acc : List Folder) :
    data.foldl (fun folder content =>
        if content.access then folder ++ [newFolder content] else folder) acc
      = acc ++ (data.filter (fun c => c.access)).map newFolder := by
  induction data generalizing acc with
  | nil => simp
  | cons c cs ih =>
    simp only [List.foldl_cons, ih]
    by_cases hc : c.access = true
    · simp [hc, List.filter_cons]
    · simp [hc, List.filter_cons]

theorem GetAllFolders_ok (r : Remote) (req : Request) (data : List Content)
    (h : r.GetRawResponse req = .ok data) :
    GetAllFolders r req = ((data.filter (fun c => c.access)).map newFolder, none) := by
  simp only [GetAllFolders, h, foldl_newFolder, List.nil_append]

theorem GetAllFolders_error (r : Remote) (req : Request) (e : String)
    (h : r.GetRawResponse req = .error e) :
    GetAllFolders r req = ([], some e) := by
  simp only [GetAllFolders, h]

theorem GetAllFolders_cases (r : Remote) (req : Request) :
    (∃ e, GetAllFolders r req = ([], some e)) ∨
    (∃ folders, GetAllFolders r req = (folders, none)) := by
  cases h : r.GetRawResponse req with
  | error e => exact Or.inl ⟨e, GetAllFolders_error r req e h⟩
  | ok data => exact Or.inr ⟨_, GetAllFolders_ok r req data h⟩

/-- The loop when every call succeeds. -/
theorem walkFolders_ok (r : Remote) (jwt : String) (walk : Request → Folder → Option Walk)
    (folders : List Folder) (ws : List Walk) (files : List File) (sent : List Request)
    (h : List.Forall₂
      (fun f w => walk (folderRequest r jwt f.Id) f = some w ∧ w.err = none) folders ws) :
    walkFolders r jwt walk folders files sent =
      some { files := files ++ (ws.map Walk.files).flatten, err := none
             requests := sent ++ (ws.map Walk.requests).flatten } := by
  induction h generalizing files sent with
  | nil => simp [walkFolders]
  | cons hw _ ih =>
    obtain ⟨h1, h2⟩ := hw
    simp only [walkFolders, h1, h2, ih, List.map_cons, List.flatten_cons, List.append_assoc]

/-- The loop when the calls before `bad` succeed and the call on `bad` returns an error. -/
theorem walkFolders_abort (r : Remote) (jwt : String) (walk : Request → Folder → Option Walk)
    (before : List Folder) (bad : Folder) (after : List Folder) (ws : List Walk) (wbad : Walk)
    (e : String) (files : List File) (sent : List Request)
    (hpre : List.Forall₂
      (fun f w => walk (folderRequest r jwt f.Id) f = some w ∧ w.err = none) before ws)
    (hbad : walk (folderRequest r jwt bad.Id) bad = some wbad) (he : wbad.err = some e) :
    walkFolders r jwt walk (before ++ bad :: after) files sent =
      some { files := files ++ (ws.map Walk.files).flatten, err := some e
             requests := sent ++ (ws.map Walk.requests).flatten ++ wbad.requests } := by
  induction hpre generalizing files sent with
  | nil => simp [walkFolders, hbad, he]
  | cons hw _ ih =>
    obtain ⟨h1, h2⟩ := hw
    rw [List.cons_append]
    simp only [walkFolders, h1, h2]
    rw [ih]
    simp only [List.map_cons, List.flatten_cons, List.append_assoc]

/-- The loop returns as soon as every call returns. -/
theorem walkFolders_total (r : Remote) (jwt : String) (walk : Request → Folder → Option Walk)
    (folders : List Folder) (files : List File) (sent : List Request)
    (h : ∀ f ∈ folders, ∃ w, walk (folderRequest r jwt f.Id) f = some w) :
    ∃ w, walkFolders r jwt walk folders files sent = some w := by
  induction folders generalizing files sent with
  | nil => exact ⟨_, rfl⟩
  | cons f fs ih =>
    obtain ⟨w, hw⟩ := h f (List.mem_cons_self _ _)
    have hfs : ∀ g ∈ fs, ∃ w, walk (folderRequest r jwt g.Id) g = some w :=
      fun g hg => h g (List.mem_cons_of_mem _ hg)
    cases he : w.err with
    | some e =>
      refine ⟨{ files := files, err := some e, requests := sent ++ w.requests }, ?_⟩
      simp only [walkFolders, hw, he]
    | none =>
      obtain ⟨w2, hw2⟩ := ih (files ++ w.files) (sent ++ w.requests) hfs
      exact ⟨w2, by simp only [walkFolders, hw, he, hw2]⟩

/-- A larger inner walk gives the same loop result. -/
theorem walkFolders_mono (r : Remote) (jwt : String) (walk1 walk2 : Request → Folder → Option Walk)
    (hw : ∀ q f w, walk1 q f = some w → walk2 q f = some w)
    (folders : List Folder) (files : List File) (sent : List Request) (w : Walk)
    (h : walkFolders r jwt walk1 folders files sent = some w) :
    walkFolders r jwt walk2 folders files sent = some w := by
  induction folders generalizing files sent with
  | nil => simpa [walkFolders] using h
  | cons f fs ih =>
    cases h1 : walk1 (folderRequest r jwt f.Id) f with
    | none => simp [walkFolders, h1] at h
    | some s =>
      have h2 := hw _ _ _ h1
      cases he : s.err with
      | some e =>
        simp only [walkFolders, h1, he] at h
        simp only [walkFolders, h2, he]
        exact h
      | none =>
        simp only [walkFolders, h1, he] at h
        simp only [walkFolders, h2, he]
        exact ih _ _ h

/-- Where the files of the loop result come from. -/
theorem walkFolders_mem (r : Remote) (jwt : String) (walk : Request → Folder → Option Walk)
    (folders : List Folder) (files : List File) (sent : List Request) (w : Walk)
    (h : walkFolders r jwt walk folders files sent = some w) (x : File) (hx : x ∈ w.files) :
    x ∈ files ∨ ∃ f ∈ folders, ∃ s, walk (folderRequest r jwt f.Id) f = some s ∧
      s.err = none ∧ x ∈ s.files := by
  induction folders generalizing files sent with
  | nil =>
    simp only [walkFolders, Option.some.injEq] at h
    subst h
    exact Or.inl hx
  | cons f fs ih =>
    cases h1 : walk (folderRequest r jwt f.Id) f with
    | none => simp [walkFolders, h1] at h
    | some s =>
      cases he : s.err with
      | some e =>
        simp only [walkFolders, h1, he, Option.some.injEq] at h
        subst h
        exact Or.inl hx
      | none =>
        simp only [walkFolders, h1, he] at h
        rcases ih _ _ h with hm | ⟨g, hg, s2, hs2, he2, hx2⟩
        · rcases List.mem_append.1 hm with hm | hm
          · exact Or.inl hm
          · exact Or.inr ⟨f, List.mem_cons_self _ _, s, h1, he, hm⟩
        · exact Or.inr ⟨g, List.mem_cons_of_mem _ hg, s2, hs2, he2, hx2⟩

theorem subFolderFiles_mono (r : Remote) (walk1 walk2 : Request → Folder → Option Walk)
    (hw : ∀ q f w, walk1 q f = some w → walk2 q f = some w)
    (req : Request) (folder : Folder) (w : Walk)
    (h : subFolderFiles r walk1 req folder = some w) :
    subFolderFiles r walk2 req folder = some w := by
  unfold subFolderFiles at h ⊢
  by_cases hs : folder.HasSubFolder = true
  · simp only [hs, if_true] at h ⊢
    rcases GetAllFolders_cases r (folderRequest r req.JwtToken folder.Id) with ⟨e, he⟩ | ⟨fs, hfs⟩
    · simp only [he] at h ⊢
      exact h
    · simp only [hfs] at h ⊢
      exact walkFolders_mono r _ walk1 walk2 hw _ _ _ _ h
  · simp only [hs] at h ⊢
    exact h

theorem subFolderFiles_mem (r : Remote) (walk : Request → Folder → Option Walk)
    (req : Request) (folder : Folder) (w : Walk)
    (h : subFolderFiles r walk req folder = some w) (x : File) (hx : x ∈ w.files) :
    ∃ f ∈ children r req.JwtToken folder.Id, ∃ s,
      walk (folderRequest r req.JwtToken f.Id) f = some s ∧ s.err = none ∧ x ∈ s.files := by
  unfold subFolderFiles at h
  by_cases hs : folder.HasSubFolder = true
  · simp only [hs, if_true] at h
    rcases GetAllFolders_cases r (folderRequest r req.JwtToken folder.Id) with ⟨e, he⟩ | ⟨fs, hfs⟩
    · simp only [he, Option.some.injEq] at h
      subst h
      simp at hx
    · simp only [hfs] at h
      rcases walkFolders_mem r _ walk _ _ _ _ h x hx with hm | ⟨f, hf, s, h1, h2, h3⟩
      · simp at hm
      · refine ⟨f, ?_, s, h1, h2, h3⟩
        unfold children
        rw [hfs]
        exact hf
  · simp only [hs, Bool.false_eq_true, if_false, Option.some.injEq] at h
    subst h
    simp at hx

theorem ownFiles_mem (r : Remote) (req : Request) (folder : Folder) (sub : Walk) (x : File)
    (hx : x ∈ (ownFiles r req folder sub).files) :
    x ∈ sub.files ∨ x ∈ listedFiles r req.JwtToken folder.Id := by
  unfold ownFiles at hx
  unfold listedFiles
  cases h : r.GetRawResponse (fileRequest r req.JwtToken folder.Id) with
  | error e =>
    simp only [h] at hx
    exact Or.inl hx
  | ok data =>
    simp only [h] at hx ⊢
    exact List.mem_append.1 hx

theorem getRootFiles_succ (r : Remote) (fuel : Nat) (req : Request) (folder : Folder)
    (hd : folder.Downloadable = true) :
    getRootFiles r (fuel + 1) req folder =
      match subFolderFiles r (fun q f => getRootFiles r fuel q f) req folder with
      | none => none
      | some sub =>
        match sub.err with
        | some _ => some sub
        | none => some (ownFiles r req folder sub) := by
  simp only [getRootFiles, hd, Bool.not_true, Bool.false_eq_true, if_false]

theorem getRootFiles_not_downloadable (r : Remote) (fuel : Nat) (req : Request) (folder : Folder)
    (hd : folder.Downloadable = false) :
    getRootFiles r (fuel + 1) req folder = some { files := [], err := none, requests := [] } := by
  simp only [getRootFiles, hd, Bool.not_false, if_true]

/-- More fuel does not change a result. -/
theorem getRootFiles_mono (r : Remote) (n : Nat) :
    ∀ (m : Nat) (req : Request) (folder : Folder) (w : Walk), n ≤ m →
      getRootFiles r n req folder = some w → getRootFiles r m req folder = some w := by
  induction n with
  | zero =>
    intro m req folder w _ h
    simp [getRootFiles] at h
  | succ n ih =>
    intro m req folder w hnm h
    obtain ⟨m, rfl⟩ : ∃ k, m = k + 1 := ⟨m - 1, by omega⟩
    by_cases hd : folder.Downloadable = true
    · rw [getRootFiles_succ r n req folder hd] at h
      rw [getRootFiles_succ r m req folder hd]
      cases hsub : subFolderFiles r (fun q f => getRootFiles r n q f) req folder with
      | none => simp [hsub] at h
      | some sub =>
        have h2 := subFolderFiles_mono r (fun q f => getRootFiles r n q f)
          (fun q f => getRootFiles r m q f)
          (fun q f w hw => ih m q f w (by omega) hw) req folder sub hsub
        rw [hsub] at h
        rw [h2]
        exact h
    · have hd : folder.Downloadable = false := by simpa using hd
      rw [getRootFiles_not_downloadable r n req folder hd] at h
      rw [getRootFiles_not_downloadable r m req folder hd]
      exact h

/-- On a tree of depth less than the fuel the walk returns. -/
theorem getRootFiles_total (r : Remote) (fuel : Nat) :
    ∀ (req : Request) (folder : Folder), depthWithin r req.JwtToken fuel folder = true →
      ∃ w, getRootFiles r fuel req folder = some w := by
  induction fuel with
  | zero =>
    intro req folder h
    simp [depthWithin] at h
  | succ n ih =>
    intro req folder h
    by_cases hd : folder.Downloadable = true
    · rw [getRootFiles_succ r n req folder hd]
      have hsub : ∃ sub, subFolderFiles r (fun q f => getRootFiles r n q f) req folder
          = some sub := by
        unfold subFolderFiles
        by_cases hs : folder.HasSubFolder = true
        · simp only [hs, if_true]
          rcases GetAllFolders_cases r (folderRequest r req.JwtToken folder.Id) with
            ⟨e, he⟩ | ⟨fs, hfs⟩
          · simp only [he]
            exact ⟨_, rfl⟩
          · simp only [hfs]
            apply walkFolders_total
            intro f hf
            have hall : ∀ g ∈ children r req.JwtToken folder.Id,
                depthWithin r req.JwtToken n g = true := by
              simpa [depthWithin, List.all_eq_true] using h
            have hf2 : f ∈ children r req.JwtToken folder.Id := by
              unfold children
              rw [hfs]
              exact hf
            exact ih (folderRequest r req.JwtToken f.Id) f (hall f hf2)
        · simp only [hs, Bool.false_eq_true, if_false]
          exact ⟨_, rfl⟩
      obtain ⟨sub, hsub⟩ := hsub
      rw [hsub]
      cases he : sub.err with
      | some e => exact ⟨sub, by simp only [he]⟩
      | none => exact ⟨ownFiles r req folder sub, by simp only [he]⟩
    · have hd : folder.Downloadable = false := by simpa using hd
      exact ⟨_, getRootFiles_not_downloadable r n req folder hd⟩

/-- Every file of a walk was listed from a folder reached from the start through folders
that are all downloadable. -/
theorem getRootFiles_files (r : Remote) (fuel : Nat) :
    ∀ (req : Request) (folder : Folder) (w : Walk), getRootFiles r fuel req folder = some w →
      ∀ x ∈ w.files, ∃ path last, Descends r req.JwtToken folder path last ∧
        (∀ g ∈ folder :: path, g.Downloadable = true) ∧ last.Downloadable = true ∧
        x ∈ listedFiles r req.JwtToken last.Id := by
  induction fuel with
  | zero =>
    intro req folder w h
    simp [getRootFiles] at h
  | succ n ih =>
    intro req folder w h x hx
    by_cases hd : folder.Downloadable = true
    · rw [getRootFiles_succ r n req folder hd] at h
      cases hsub : subFolderFiles r (fun q f => getRootFiles r n q f) req folder with
      | none => simp [hsub] at h
      | some sub =>
        rw [hsub] at h
        have below : x ∈ sub.files → ∃ path last, Descends r req.JwtToken folder path last ∧
            (∀ g ∈ folder :: path, g.Downloadable = true) ∧ last.Downloadable = true ∧
            x ∈ listedFiles r req.JwtToken last.Id := by
          intro hxs
          obtain ⟨f, hf, s, hs, _, hxs2⟩ := subFolderFiles_mem r _ req folder sub hsub x hxs
          obtain ⟨path, last, hp, hall, hl, hin⟩ := ih _ f s hs x hxs2
          refine ⟨f :: path, last, ⟨hf, hp⟩, ?_, hl, hin⟩
          intro g hg
          rcases List.mem_cons.1 hg with rfl | hg
          · exact hd
          · exact hall g hg
        cases he : sub.err with
        | some e =>
          simp only [he, Option.some.injEq] at h
          subst h
          exact below hx
        | none =>
          simp only [he, Option.some.injEq] at h
          subst h
          rcases ownFiles_mem r req folder sub x hx with hxs | hown
          · exact below hxs
          · refine ⟨[], folder, rfl, ?_, hd, hown⟩
            intro g hg
            rcases List.mem_cons.1 hg with rfl | hg
            · exact hd
            · simp at hg
    · have hd : folder.Downloadable = false := by simpa using hd
      rw [getRootFiles_not_downloadable r n req folder hd] at h
      simp only [Option.some.injEq] at h
      subst h
      simp at hx

theorem walkFolders_err (r : Remote) (jwt : String) (walk : Request → Folder → Option Walk)
    (hw : ∀ q f s, walk q f = some s → s.err = none)
    (folders : List Folder) (files : List File) (sent : List Request) (w : Walk)
    (h : walkFolders r jwt walk folders files sent = some w) : w.err = none := by
  induction folders generalizing files sent with
  | nil =>
    simp only [walkFolders, Option.some.injEq] at h
    subst h
    rfl
  | cons f fs ih =>
    cases h1 : walk (folderRequest r jwt f.Id) f with
    | none => simp [walkFolders, h1] at h
    | some s =>
      have he := hw _ _ _ h1
      simp only [walkFolders, h1, he] at h
      exact ih _ _ h

theorem GetAllFolders_noErrors (r : Remote) (hok : NoErrors r) (req : Request) :
    GetAllFolders r req = ((GetAllFolders r req).1, none) := by
  obtain ⟨data, hdata⟩ := hok req
  rw [GetAllFolders_ok r req data hdata]

/-- Without request errors no walk returns an error. -/
theorem getRootFiles_noErrors (r : Remote) (hok : NoErrors r) (fuel : Nat) :
    ∀ (req : Request) (folder : Folder) (w : Walk),
      getRootFiles r fuel req folder = some w → w.err = none := by
  induction fuel with
  | zero =>
    intro req folder w h
    simp [getRootFiles] at h
  | succ n ih =>
    intro req folder w h
    by_cases hd : folder.Downloadable = true
    · rw [getRootFiles_succ r n req folder hd] at h
      cases hsub : subFolderFiles r (fun q f => getRootFiles r n q f) req folder with
      | none => simp [hsub] at h
      | some sub =>
        have hsubErr : sub.err = none := by
          unfold subFolderFiles at hsub
          by_cases hs : folder.HasSubFolder = true
          · simp only [hs, if_true] at hsub
            rw [GetAllFolders_noErrors r hok] at hsub
            simp only at hsub
            exact walkFolders_err r _ _ (fun q f s hqs => ih q f s hqs) _ _ _ _ hsub
          · simp only [hs, Bool.false_eq_true, if_false, Option.some.injEq] at hsub
            subst hsub
            rfl
        rw [hsub] at h
        simp only [hsubErr, Option.some.injEq] at h
        subst h
        obtain ⟨data, hdata⟩ := hok (fileRequest r req.JwtToken folder.Id)
        simp only [ownFiles, hdata]
    · have hd : folder.Downloadable = false := by simpa using hd
      rw [getRootFiles_not_downloadable r n req folder hd] at h
      simp only [Option.some.injEq] at h
      subst h
      rfl

/-- A conditional between two answers that are not errors is not an error. -/
theorem ite_ok {c : Prop} [Decidable c] {a b : Except String (List Content)}
    (ha : ∃ d, a = .ok d) (hb : ∃ d, b = .ok d) : ∃ d, (if c then a else b) = .ok d := by
  by_cases h : c
  · rw [if_pos h]; exact ha
  · rw [if_neg h]; exact hb

theorem exists_forall₂_of_forall_mem {α β : Type} (P : α → β → Prop) (l : List α)
    (h : ∀ a ∈ l, ∃ b, P a b) : ∃ bs, List.Forall₂ P l bs := by
  induction l with
  | nil => exact ⟨[], List.Forall₂.nil⟩
  | cons a as ih =>
    obtain ⟨b, hb⟩ := h a (List.mem_cons_self _ _)
    obtain ⟨bs, hbs⟩ := ih (fun x hx => h x (List.mem_cons_of_mem _ hx))
    exact ⟨b :: bs, List.Forall₂.cons hb hbs⟩

/-- C4: on a finite remote tree `GetAllFiles` returns, and every file it returns was listed
from a folder whose `Downloadable` flag is true and that is reached from a folder of the root
listing through folders that are all `Downloadable`, where `Downloadable` is `isActive` and
not `allowUpload`; a folder with `isActive = false` yields no files and no request at all is
sent for it (neither its subfolder listing nor its file listing), whatever its
`subFolderCount`. -/
theorem C4_files_only_from_downloadable_folders (r : Remote) (fuel : Nat) (req : Request)
    (hfin : ∀ folder ∈ (GetAllFolders r req).1, depthWithin r req.JwtToken fuel folder = true) :
    (∀ content : Content,
      (newFolder content).Downloadable = (content.isActive && !content.allowUpload)) ∧
    (∀ q data, r.GetRawResponse q = .ok data → ∀ folder ∈ (GetAllFolders r q).1,
      ∃ content ∈ data, folder = newFolder content) ∧
    (∃ w, GetAllFiles r fuel req = some w ∧
      ∀ x ∈ w.files, ∃ top path last, top ∈ (GetAllFolders r req).1 ∧
        Descends r req.JwtToken top path last ∧
        (∀ g ∈ top :: path, g.Downloadable = true) ∧ last.Downloadable = true ∧
        x ∈ listedFiles r req.JwtToken last.Id) ∧
    (∀ (content : Content) (n : Nat) (q : Request), content.isActive = false →
      getRootFiles r (n + 1) q (newFolder content) =
        some { files := [], err := none, requests := [] }) := by
  refine ⟨fun _ => rfl, ?_, ?_, ?_⟩
  · intro q data hq folder hf
    rw [GetAllFolders_ok r q data hq] at hf
    simp only [List.mem_map, List.mem_filter] at hf
    obtain ⟨c, ⟨hc, _⟩, rfl⟩ := hf
    exact ⟨c, hc, rfl⟩
  · unfold GetAllFiles
    rcases GetAllFolders_cases r req with ⟨e, he⟩ | ⟨fs, hfs⟩
    · simp only [he]
      exact ⟨_, rfl, by simp⟩
    · rw [hfs] at hfin
      simp only [hfs]
      obtain ⟨w, hw⟩ := walkFolders_total r req.JwtToken (fun q f => getRootFiles r fuel q f)
        fs [] [req]
        (fun f hf => getRootFiles_total r fuel (folderRequest r req.JwtToken f.Id) f (hfin f hf))
      refine ⟨w, hw, ?_⟩
      intro x hx
      rcases walkFolders_mem r _ _ _ _ _ _ hw x hx with hm | ⟨f, hf, s, hs, _, hxs⟩
      · simp at hm
      · obtain ⟨path, last, hp, hall, hl, hin⟩ := getRootFiles_files r fuel _ f s hs x hxs
        exact ⟨f, path, last, hf, hp, hall, hl, hin⟩
  · intro content n q hact
    apply getRootFiles_not_downloadable
    simp [newFolder, hact]

/-- C4 on the sample tree: the walk returns, and the inactive folder `X`, which reports three
subfolders, yields no file and no request. -/
theorem C4_files_only_from_downloadable_folders_witness :
    (∀ folder ∈ (GetAllFolders (campus none) rootRequest).1,
      depthWithin (campus none) rootRequest.JwtToken 2 folder = true) ∧
    (∃ w, GetAllFiles (campus none) 2 rootRequest = some w ∧
      ∀ x ∈ w.files, ∃ top path last, top ∈ (GetAllFolders (campus none) rootRequest).1 ∧
        Descends (campus none) rootRequest.JwtToken top path last ∧
        (∀ g ∈ top :: path, g.Downloadable = true) ∧ last.Downloadable = true ∧
        x ∈ listedFiles (campus none) rootRequest.JwtToken last.Id) ∧
    getRootFiles (campus none) 1 rootRequest (newFolder (entryOf "X" "Archive" false false 3)) =
      some { files := [], err := none, requests := [] } :=
  ⟨by decide,
   (C4_files_only_from_downloadable_folders (campus none) 2 rootRequest (by decide)).2.2.1,
   (C4_files_only_from_downloadable_folders (campus none) 2 rootRequest (by decide)).2.2.2
      (entryOf "X" "Archive" false false 3) 0 rootRequest rfl⟩

/-- C7 as stated fails: on the sample tree with the file listing of `A1` failing, the walk
aborts with that error and returns no file at all, although the sibling `A2` after `A1` is
downloadable and its own walk yields `week2.pdf`, and the top-level folder `B` after `A`
yields `tutorial.pdf`. -/
theorem C7_walk_continues_with_siblings_fails :
    (GetAllFiles (campus (some "A1")) 2 rootRequest).map Walk.files = some [] ∧
    (GetAllFiles (campus (some "A1")) 2 rootRequest).map Walk.err =
      some (some "received non 200 response code") ∧
    (newFolder (entryOf "A2" "Week2" true false 0)).Downloadable = true ∧
    (getRootFiles (campus (some "A1")) 2 rootRequest
        (newFolder (entryOf "A2" "Week2" true false 0))).map Walk.files =
      some [{ Id := "f2", Name := "week2.pdf" }] ∧
    (getRootFiles (campus (some "A1")) 2 rootRequest
        (newFolder (entryOf "B" "Tutorials" true false 0))).map Walk.files =
      some [{ Id := "f3", Name := "tutorial.pdf" }] := by
  refine ⟨?_, ?_, ?_, ?_, ?_⟩ <;> decide

/-- C7 (amended): when the walk of one folder of a listing returns an error (its own listing
request failed, or a walk below it did) and the walks of the folders before it succeeded, the
loop stops there. `GetAllFiles` returns that error with only the files of the folders before
the failing one, and sends no request for the folders after it; `getRootFiles` on a
downloadable parent whose subfolder listing holds the failing folder does the same, without
listing the parent's own files. A failing file listing of a downloadable folder without
subfolders makes `getRootFiles` return the error. -/
theorem C7_walk_stops_at_first_error (r : Remote) (fuel : Nat) (req : Request)
    (before : List Folder) (bad : Folder) (after : List Folder) (ws : List Walk) (wbad : Walk)
    (e : String)
    (hpre : List.Forall₂ (fun f w =>
      getRootFiles r fuel (folderRequest r req.JwtToken f.Id) f = some w ∧ w.err = none)
      before ws)
    (hbad : getRootFiles r fuel (folderRequest r req.JwtToken bad.Id) bad = some wbad)
    (he : wbad.err = some e) :
    (GetAllFolders r req = (before ++ bad :: after, none) →
      GetAllFiles r fuel req =
        some { files := (ws.map Walk.files).flatten, err := some e
               requests := [req] ++ (ws.map Walk.requests).flatten ++ wbad.requests }) ∧
    (∀ parent : Folder, parent.Downloadable = true → parent.HasSubFolder = true →
      GetAllFolders r (folderRequest r req.JwtToken parent.Id) = (before ++ bad :: after, none) →
      getRootFiles r (fuel + 1) req parent =
        some { files := (ws.map Walk.files).flatten, err := some e
               requests := [folderRequest r req.JwtToken parent.Id] ++
                 (ws.map Walk.requests).flatten ++ wbad.requests }) ∧
    (∀ (leaf : Folder) (n : Nat) (msg : String), leaf.Downloadable = true →
      leaf.HasSubFolder = false →
      r.GetRawResponse (fileRequest r req.JwtToken leaf.Id) = .error msg →
      getRootFiles r (n + 1) req leaf =
        some { files := [], err := some msg
               requests := [fileRequest r req.JwtToken leaf.Id] }) := by
  have hloop := fun (sent : List Request) =>
    walkFolders_abort r req.JwtToken (fun q f => getRootFiles r fuel q f) before bad after ws
      wbad e [] sent hpre hbad he
  refine ⟨?_, ?_, ?_⟩
  · intro hlist
    unfold GetAllFiles
    simp only [hlist]
    rw [hloop]
    simp
  · intro parent hd hs hlist
    rw [getRootFiles_succ r fuel req parent hd]
    have hsub : subFolderFiles r (fun q f => getRootFiles r fuel q f) req parent =
        some { files := (ws.map Walk.files).flatten, err := some e
               requests := [folderRequest r req.JwtToken parent.Id] ++
                 (ws.map Walk.requests).flatten ++ wbad.requests } := by
      unfold subFolderFiles
      simp only [hs, if_true, hlist]
      rw [hloop]
      simp
    rw [hsub]
  · intro leaf n msg hd hs hfail
    rw [getRootFiles_succ r n req leaf hd]
    simp [subFolderFiles, hs, ownFiles, hfail]

/-- C7 (amended) on the sample tree with the file listing of `B` failing: the walk of `A`
before it succeeds, and `GetAllFiles` returns the error with the three files of `A`. -/
theorem C7_walk_stops_at_first_error_witness :
    (GetAllFiles (campus (some "B")) 2 rootRequest).map Walk.files =
      some [{ Id := "f1", Name := "week1.pdf" }, { Id := "f2", Name := "week2.pdf" },
            { Id := "f0", Name := "syllabus.pdf" }] ∧
    (GetAllFiles (campus (some "B")) 2 rootRequest).map Walk.err =
      some (some "received non 200 response code") := by
  have h := (C7_walk_stops_at_first_error (campus (some "B")) 2 rootRequest
    [newFolder (entryOf "A" "Lectures" true false 2),
     newFolder (entryOf "S" "Submissions" true true 0),
     newFolder (entryOf "X" "Archive" false false 3)]
    (newFolder (entryOf "B" "Tutorials" true false 0)) []
    [{ files := [{ Id := "f1", Name := "week1.pdf" }, { Id := "f2", Name := "week2.pdf" },
                 { Id := "f0", Name := "syllabus.pdf" }]
       err := none
       requests := [folderRequest (campus (some "B")) "jwt" "A",
                    fileRequest (campus (some "B")) "jwt" "A1",
                    fileRequest (campus (some "B")) "jwt" "A2",
                    fileRequest (campus (some "B")) "jwt" "A"] },
     { files := [], err := none, requests := [] },
     { files := [], err := none, requests := [] }]
    { files := [], err := some "received non 200 response code"
      requests := [fileRequest (campus (some "B")) "jwt" "B"] }
    "received non 200 response code"
    (List.Forall₂.cons (by decide) (List.Forall₂.cons (by decide)
      (List.Forall₂.cons (by decide) List.Forall₂.nil)))
    (by decide) rfl).1 (by decide)
  rw [h]
  exact ⟨rfl, rfl⟩

/-- C8 as stated fails on the second sample tree, which is finite and answers every request.
Folder `C` reports no subfolder, so its listed subfolder `C1` is not walked: the walk of `C`
returns only `readings.pdf`, not the files of `C1` followed by it. Folder `D` lists `D1`
without the key "access", so `D1` is not walked: the walk of `D` returns `open.pdf` and
`labs.pdf`, without the `hidden.pdf` that the walk of `D1` returns. -/
theorem C8_listed_subfolders_left_out :
    (∀ req, ∃ data, annex.GetRawResponse req = Except.ok data) ∧
    depthWithin annex "jwt" 2 (newFolder (entryOf "C" "Readings" true false 0)) = true ∧
    depthWithin annex "jwt" 2 (newFolder (entryOf "D" "Labs" true false 2)) = true ∧
    annex.GetRawResponse
        { Url := "https://luminus.nus.edu.sg/v2/api/files/?populate=totalFileCount,subFolderCount,TotalSize&ParentID=C"
          JwtToken := "jwt", UserAgent := "agent" } =
      Except.ok [entryOf "C1" "Extra" true false 0] ∧
    (getRootFiles annex 2 rootRequest (newFolder (entryOf "C1" "Extra" true false 0))).map
        Walk.files = some [{ Id := "c1", Name := "extra.pdf" }] ∧
    (getRootFiles annex 2 rootRequest (newFolder (entryOf "C" "Readings" true false 0))).map
        Walk.files = some [{ Id := "c0", Name := "readings.pdf" }] ∧
    (getRootFiles annex 2 rootRequest (newFolder (entryOf "C" "Readings" true false 0))).map
        Walk.files ≠
      some ([{ Id := "c1", Name := "extra.pdf" }] ++ [{ Id := "c0", Name := "readings.pdf" }]) ∧
    (getRootFiles annex 2 rootRequest
        (newFolder { access := false, id := "D1", name := "Hidden", isActive := true
                     allowUpload := false, subFolderCount := 0 })).map
        Walk.files = some [{ Id := "d1", Name := "hidden.pdf" }] ∧
    (getRootFiles annex 2 rootRequest (newFolder (entryOf "D" "Labs" true false 2))).map
        Walk.files = some [{ Id := "d2", Name := "open.pdf" }, { Id := "d0", Name := "labs.pdf" }] ∧
    annex.GetRawResponse
        { Url := "https://luminus.nus.edu.sg/v2/api/files/?populate=totalFileCount,subFolderCount,TotalSize&ParentID=D"
          JwtToken := "jwt", UserAgent := "agent" } =
      Except.ok [{ access := false, id := "D1", name := "Hidden", isActive := true
                   allowUpload := false, subFolderCount := 0 },
                 entryOf "D2" "Open" true false 0] ∧
    (getRootFiles annex 2 rootRequest (newFolder (entryOf "D2" "Open" true false 0))).map
        Walk.files = some [{ Id := "d2", Name := "open.pdf" }] ∧
    (getRootFiles annex 2 rootRequest (newFolder (entryOf "D" "Labs" true false 2))).map
        Walk.files ≠
      some ([{ Id := "d1", Name := "hidden.pdf" }] ++ [{ Id := "d2", Name := "open.pdf" }] ++
        [{ Id := "d0", Name := "labs.pdf" }]) := by
  refine ⟨?_, ?_, ?_, rfl, ?_, ?_, ?_, ?_, ?_, rfl, ?_, ?_⟩
  · intro q
    exact ite_ok ⟨_, rfl⟩ (ite_ok ⟨_, rfl⟩ (ite_ok ⟨_, rfl⟩ (ite_ok ⟨_, rfl⟩ (ite_ok ⟨_, rfl⟩
      (ite_ok ⟨_, rfl⟩ (ite_ok ⟨_, rfl⟩ (ite_ok ⟨_, rfl⟩ ⟨_, rfl⟩)))))))
  all_goals decide

/-- C8 (amended): on a finite remote tree without request errors, `getRootFiles` on a
downloadable folder returns, without error, the results of `getRootFiles` on the entries of
its folder listing that carry the key "access", concatenated in the order of the backend
listing, followed by the entries of its own file listing (their `id` and `name`); the folder
listing is requested only when the folder reports a positive `subFolderCount`, and a folder
that reports none returns its own files only. The two listings are the backend's answers to
the folder endpoint and the file endpoint for the folder's id. -/
theorem C8_subfolders_first_then_own_files (r : Remote) (hok : NoErrors r) (fuel : Nat)
    (req : Request) (folder : Folder)
    (hfin : depthWithin r req.JwtToken fuel folder = true)
    (hd : folder.Downloadable = true) :
    ∃ (subData fileData : List Content) (w : Walk) (ws : List Walk),
      r.GetRawResponse
          { Url := "https://luminus.nus.edu.sg/v2/api/files/?populate=totalFileCount,subFolderCount,TotalSize&ParentID="
              ++ folder.Id
            JwtToken := req.JwtToken, UserAgent := r.USER_AGENT } = Except.ok subData ∧
      r.GetRawResponse
          { Url := "https://luminus.nus.edu.sg/v2/api/files/" ++ folder.Id
              ++ "/file?populate=Creator,lastUpdatedUser,comment"
            JwtToken := req.JwtToken, UserAgent := r.USER_AGENT } = Except.ok fileData ∧
      getRootFiles r fuel req folder = some w ∧ w.err = none ∧
      List.Forall₂ (fun (c : Content) (v : Walk) =>
        getRootFiles r fuel
          { Url := "https://luminus.nus.edu.sg/v2/api/files/?populate=totalFileCount,subFolderCount,TotalSize&ParentID="
              ++ c.id
            JwtToken := req.JwtToken, UserAgent := r.USER_AGENT }
          { Id := c.id, Name := c.name, Downloadable := c.isActive && !c.allowUpload
            HasSubFolder := decide (c.subFolderCount > 0) } = some v ∧ v.err = none)
        (if folder.HasSubFolder = true then subData.filter (fun c => c.access) else []) ws ∧
      w.files = (ws.map Walk.files).flatten ++
        fileData.map (fun c => ({ Id := c.id, Name := c.name } : File)) := by
  obtain ⟨n, rfl⟩ : ∃ n, fuel = n + 1 := by
    cases fuel with
    | zero => simp [depthWithin] at hfin
    | succ n => exact ⟨n, rfl⟩
  obtain ⟨subData, hsubData⟩ := hok (folderRequest r req.JwtToken folder.Id)
  obtain ⟨fileData, hfileData⟩ := hok (fileRequest r req.JwtToken folder.Id)
  have hchildren : children r req.JwtToken folder.Id =
      (subData.filter (fun c => c.access)).map newFolder := by
    unfold children
    rw [GetAllFolders_ok r _ subData hsubData]
  have hall : ∀ g ∈ children r req.JwtToken folder.Id,
      depthWithin r req.JwtToken n g = true := by
    simpa [depthWithin, List.all_eq_true] using hfin
  have hmemL : ∀ c ∈ (if folder.HasSubFolder = true then subData.filter (fun c => c.access)
      else []), newFolder c ∈ children r req.JwtToken folder.Id := by
    intro c hc
    rw [hchildren]
    by_cases hs : folder.HasSubFolder = true
    · rw [if_pos hs] at hc
      exact List.mem_map_of_mem newFolder hc
    · rw [if_neg hs] at hc
      cases hc
  obtain ⟨ws, hws⟩ := exists_forall₂_of_forall_mem
    (fun (c : Content) (v : Walk) =>
      getRootFiles r n (folderRequest r req.JwtToken c.id) (newFolder c) = some v ∧ v.err = none)
    (if folder.HasSubFolder = true then subData.filter (fun c => c.access) else [])
    (fun c hc => by
      obtain ⟨v, hv⟩ := getRootFiles_total r n (folderRequest r req.JwtToken c.id) (newFolder c)
        (hall _ (hmemL c hc))
      exact ⟨v, hv, getRootFiles_noErrors r hok n _ _ _ hv⟩)
  have hsub : ∃ sent, subFolderFiles r (fun q f => getRootFiles r n q f) req folder =
      some { files := (ws.map Walk.files).flatten, err := none, requests := sent } := by
    unfold subFolderFiles
    by_cases hs : folder.HasSubFolder = true
    · rw [if_pos hs] at hws
      simp only [hs, if_true]
      rw [GetAllFolders_ok r _ subData hsubData]
      simp only
      have hwsF : List.Forall₂ (fun (f : Folder) (v : Walk) =>
          (fun q f => getRootFiles r n q f) (folderRequest r req.JwtToken f.Id) f = some v ∧
            v.err = none)
          ((subData.filter (fun c => c.access)).map newFolder) ws :=
        List.forall₂_map_left_iff.2 hws
      rw [walkFolders_ok r req.JwtToken (fun q f => getRootFiles r n q f) _ ws []
        [folderRequest r req.JwtToken folder.Id] hwsF]
      exact ⟨[folderRequest r req.JwtToken folder.Id] ++ (ws.map Walk.requests).flatten,
        by simp⟩
    · rw [if_neg hs] at hws
      cases hws
      have hs : folder.HasSubFolder = false := by simpa using hs
      simp only [hs, Bool.false_eq_true, if_false]
      exact ⟨[], by simp⟩
  obtain ⟨sent, hsub⟩ := hsub
  refine ⟨subData, fileData, ownFiles r req folder
      { files := (ws.map Walk.files).flatten, err := none, requests := sent }, ws,
    hsubData, hfileData, ?_, ?_, ?_, ?_⟩
  · rw [getRootFiles_succ r n req folder hd, hsub]
  · simp only [ownFiles, hfileData]
  · exact List.Forall₂.imp (fun _ _ hv =>
      ⟨getRootFiles_mono r n (n + 1) _ _ _ (Nat.le_succ n) hv.1, hv.2⟩) hws
  · simp only [ownFiles, hfileData]
    rfl

/-- C8 (amended) on the folder `A` of the first sample tree: the files of `A1`, then of `A2`,
then the files of `A` itself. -/
theorem C8_subfolders_first_then_own_files_witness :
    (getRootFiles (campus none) 2 rootRequest
        (newFolder (entryOf "A" "Lectures" true false 2))).map Walk.files =
      some [{ Id := "f1", Name := "week1.pdf" }, { Id := "f2", Name := "week2.pdf" },
            { Id := "f0", Name := "syllabus.pdf" }] := by
  obtain ⟨subData, fileData, w, ws, h1, h2, h3, _, h5, h6⟩ :=
    C8_subfolders_first_then_own_files (campus none)
      (by
        intro q
        refine ite_ok ⟨_, rfl⟩ (ite_ok ⟨_, rfl⟩ (ite_ok ⟨_, rfl⟩ ?_))
        rw [if_neg (fun h => Option.noConfusion h)]
        exact ite_ok ⟨_, rfl⟩ (ite_ok ⟨_, rfl⟩ (ite_ok ⟨_, rfl⟩ (ite_ok ⟨_, rfl⟩
          (ite_ok ⟨_, rfl⟩ (ite_ok ⟨_, rfl⟩ (ite_ok ⟨_, rfl⟩ ⟨_, rfl⟩)))))))
      2 rootRequest (newFolder (entryOf "A" "Lectures" true false 2)) (by decide) (by decide)
  have e1 : subData = [entryOf "A1" "Week1" true false 0, entryOf "A2" "Week2" true false 0] :=
    Except.ok.inj (h1.symm.trans rfl)
  have e2 : fileData = [entryOf "f0" "syllabus.pdf" true false 0] :=
    Except.ok.inj (h2.symm.trans rfl)
  subst e1 e2
  rw [h3, Option.map_some', h6]
  have hA : (newFolder (entryOf "A" "Lectures" true false 2)).HasSubFolder = true := by decide
  rw [if_pos hA] at h5
  have hf : List.filter (fun c => c.access)
      [entryOf "A1" "Week1" true false 0, entryOf "A2" "Week2" true false 0] =
      [entryOf "A1" "Week1" true false 0, entryOf "A2" "Week2" true false 0] := by decide
  rw [hf] at h5
  cases h5 with
  | cons ha hrest =>
    cases hrest with
    | cons hb hnil =>
      cases hnil
      have va := Option.some.inj (ha.1.symm.trans
        (by decide : getRootFiles (campus none) 2 _ _ =
          some { files := [{ Id := "f1", Name := "week1.pdf" }], err := none
                 requests := [fileRequest (campus none) "jwt" "A1"] }))
      have vb := Option.some.inj (hb.1.symm.trans
        (by decide : getRootFiles (campus none) 2 _ _ =
          some { files := [{ Id := "f2", Name := "week2.pdf" }], err := none
                 requests := [fileRequest (campus none) "jwt" "A2"] }))
      subst va vb
      rfl

end api

namespace auth

/-! ## The code between the two markers -/

theorem startsWith_iff (l p : List Char) : startsWith l p = true ↔ ∃ t, l = p ++ t := by
  induction p generalizing l with
  | nil =>
    cases l <;> simp [startsWith]
  | cons x xs ih =>
    cases l with
    | nil => simp [startsWith]
    | cons c cs =>
      simp only [startsWith, Bool.and_eq_true, beq_iff_eq, ih, List.cons_append,
        List.cons.injEq]
      constructor
      · rintro ⟨rfl, t, rfl⟩
        exact ⟨t, rfl, rfl⟩
      · rintro ⟨t, rfl, rfl⟩
        exact ⟨rfl, t, rfl⟩

/-- A result of the search other than `-1` is the position of the first occurrence. -/
theorem indexFrom_found (substr : List Char) (l : List Char) (i : Nat)
    (h : indexFrom substr l i ≠ -1) :
    ∃ pre post, l = pre ++ substr ++ post ∧ indexFrom substr l i = ((i + pre.length : Nat) : Int) ∧
      ∀ a b, l = a ++ substr ++ b → pre.length ≤ a.length := by
  induction l generalizing i with
  | nil =>
    unfold indexFrom at h ⊢
    by_cases hs : startsWith [] substr = true
    · obtain ⟨t, ht⟩ := (startsWith_iff [] substr).1 hs
      have hsub : substr = [] := (List.append_eq_nil.1 ht.symm).1
      refine ⟨[], [], by simp [hsub], by simp [hs], ?_⟩
      intro a b _
      exact Nat.zero_le _
    · simp [hs] at h
  | cons c cs ih =>
    unfold indexFrom at h ⊢
    by_cases hs : startsWith (c :: cs) substr = true
    · obtain ⟨t, ht⟩ := (startsWith_iff (c :: cs) substr).1 hs
      refine ⟨[], t, by simpa using ht, by simp [hs], ?_⟩
      intro a b _
      exact Nat.zero_le _
    · simp only [hs, Bool.false_eq_true, if_false] at h ⊢
      obtain ⟨pre, post, hl, hi, hmin⟩ := ih (i + 1) h
      refine ⟨c :: pre, post, by simp [hl], ?_, ?_⟩
      · rw [hi]
        simp only [List.length_cons]
        congr 1
        omega
      · intro a b hab
        cases a with
        | nil =>
          exfalso
          apply hs
          exact (startsWith_iff (c :: cs) substr).2 ⟨b, by simpa using hab⟩
        | cons a0 as =>
          simp only [List.cons_append, List.cons.injEq] at hab
          have := hmin as b hab.2
          simp only [List.length_cons]
          omega

theorem Index_found (s substr : String) (h : Index s substr ≠ -1) :
    ∃ pre post, s.data = pre ++ substr.data ++ post ∧ Index s substr = (pre.length : Int) ∧
      ∀ a b, s.data = a ++ substr.data ++ b → pre.length ≤ a.length := by
  obtain ⟨pre, post, hl, hi, hmin⟩ := indexFrom_found substr.data s.data 0 h
  refine ⟨pre, post, hl, ?_, hmin⟩
  unfold Index
  rw [hi]
  simp

/-- C11 as stated fails: the value "&state=1&code=abc" contains both markers ("code=" at
index 9, "&state=" at index 0), and the slice expression of line 85 is `loc[14:0]`, a panic. -/
theorem C11_extraction_fails_when_state_comes_first :
    Index "&state=1&code=abc" "code=" = 9 ∧ Index "&state=1&code=abc" "&state=" = 0 ∧
    extractCode "&state=1&code=abc" = Flow.panic := by
  refine ⟨?_, ?_, ?_⟩ <;> decide

/-- C11 (amended): for every `Location` value that contains "code=" and whose first "&state="
starts at or after the end of the first "code=", the extraction goes on (no panic, no return)
with exactly the text between the two markers: the value reads
`pre ++ "code=" ++ code ++ "&state=" ++ post`, where no "code=" starts before the one shown and
no "&state=" starts before the one shown. -/
theorem C11_code_between_markers (location : String)
    (hcode : 0 ≤ Index location "code=")
    (horder : Index location "code=" + 5 ≤ Index location "&state=") :
    ∃ pre code post,
      location.data = pre ++ "code=".data ++ code ++ "&state=".data ++ post ∧
      (∀ a b, location.data = a ++ "code=".data ++ b → pre.length ≤ a.length) ∧
      (∀ a b, location.data = a ++ "&state=".data ++ b →
        (pre ++ "code=".data ++ code).length ≤ a.length) ∧
      extractCode location = Flow.next ⟨code⟩ := by
  obtain ⟨p1, q1, hs1, hi1, hmin1⟩ := Index_found location "code=" (by omega)
  obtain ⟨p2, q2, hs2, hi2, hmin2⟩ := Index_found location "&state=" (by omega)
  have hC : "code=".data.length = 5 := rfl
  have hle : p1.length + 5 ≤ p2.length := by
    rw [hi1, hi2] at horder
    exact_mod_cast horder
  have htake1 : location.data.take (p1.length + 5) = p1 ++ "code=".data := by
    rw [hs1, List.take_append_of_le_length (by simp [hC])]
    exact List.take_of_length_le (by simp [hC])
  have htake2 : location.data.take p2.length = p2 := by
    rw [hs2, List.append_assoc]
    exact List.take_left' rfl
  have hp2 : p2 = p1 ++ "code=".data ++
      (location.data.drop (p1.length + 5)).take (p2.length - (p1.length + 5)) := by
    have h := List.take_add location.data (p1.length + 5) (p2.length - (p1.length + 5))
    rw [Nat.add_sub_cancel' hle, htake2, htake1] at h
    exact h
  have hlen : p2.length ≤ location.data.length := by
    rw [hs2]
    simp only [List.length_append]
    omega
  refine ⟨p1, (location.data.drop (p1.length + 5)).take (p2.length - (p1.length + 5)), q2,
    ?_, hmin1, ?_, ?_⟩
  · rw [← hp2]
    exact hs2
  · intro a b hab
    rw [← hp2]
    exact hmin2 a b hab
  · have hslice : slice location (Index location "code=" + 5) (Index location "&state=") =
        some ⟨(location.data.drop (p1.length + 5)).take (p2.length - (p1.length + 5))⟩ := by
      unfold slice
      rw [hi1, hi2]
      have hcond : (0 : Int) ≤ (p1.length : Int) + 5 ∧
          (p1.length : Int) + 5 ≤ (p2.length : Int) ∧
          (p2.length : Int) ≤ (location.length : Int) := by
        refine ⟨by omega, by omega, ?_⟩
        show (p2.length : Int) ≤ (location.data.length : Int)
        exact_mod_cast hlen
      rw [if_pos hcond]
      have e1 : ((p1.length : Int) + 5).toNat = p1.length + 5 := by omega
      have e2 : ((p2.length : Int)).toNat = p2.length := by omega
      rw [e1, e2]
    simp only [extractCode, hslice]

/-- C11 (amended) on a redirect of the portal: the code is `abc.def`. -/
theorem C11_code_between_markers_witness :
    ∃ pre code post,
      "https://luminus.nus.edu.sg/auth/callback?code=abc.def&state=V6E9".data =
        pre ++ "code=".data ++ code ++ "&state=".data ++ post ∧
      (∀ a b, "https://luminus.nus.edu.sg/auth/callback?code=abc.def&state=V6E9".data =
        a ++ "code=".data ++ b → pre.length ≤ a.length) ∧
      (∀ a b, "https://luminus.nus.edu.sg/auth/callback?code=abc.def&state=V6E9".data =
        a ++ "&state=".data ++ b → (pre ++ "code=".data ++ code).length ≤ a.length) ∧
      extractCode "https://luminus.nus.edu.sg/auth/callback?code=abc.def&state=V6E9" =
        Flow.next ⟨code⟩ :=
  C11_code_between_markers "https://luminus.nus.edu.sg/auth/callback?code=abc.def&state=V6E9"
    (by decide) (by decide)

end auth

namespace cron

/-! ## The callback of `createJob` -/

/-- Run on their own, the statements after the `return` do sync: on the sample services they
walk module `A`, download `x.pdf` and send the summary notification. -/
theorem syncBody_sample :
    notificationsOf (syncBody sampleServices (failing []) chatUp "root" (fresh ())) =
      [{ Title := "Sync: 1/1 updated", Content := "[A] x.pdf " }] ∧
    (attemptsOf (syncBody sampleServices (failing []) chatUp "root" (fresh ()))).map
      Attempt.file = [fileX 11] := by
  constructor <;> decide

theorem andThen_returnNow {σ : Type} (rest : σ → Exec σ) (s : σ) :
    andThen returnNow rest s = Exec.returned s := by
  unfold andThen returnNow
  rfl

/-- C12: for every sync root directory and every frequency, the callback that `createJob`
schedules returns right after writing the "job started" line. Each invocation leaves the
outside world as it was, sends no notification, walks no module, compares no file with the
local index and downloads nothing; whatever statements follow the `return` have no part in the
result. -/
theorem C12_callback_returns_after_logging {W M : Type} (svc : Services W M) (env : Env W)
    (chat : Chat W) (rootSyncDirectory : String) (frequency : Int) (s : Run W M) :
    (createJob svc env chat rootSyncDirectory frequency).everyHours = frequency ∧
    (createJob svc env chat rootSyncDirectory frequency).callback s =
      Exec.returned
        { world := s.world
          logged := s.logged ++ ["job started: " ++ svc.Now s.world]
          notifications := s.notifications
          walked := s.walked
          compared := s.compared
          attempts := s.attempts } ∧
    (∀ w : W, (createJob svc env chat rootSyncDirectory frequency).callback (fresh w) =
      Exec.returned
        { world := w
          logged := ["job started: " ++ svc.Now w]
          notifications := []
          walked := []
          compared := []
          attempts := [] }) ∧
    (∀ rest : Run W M → Exec (Run W M),
      andThen (logStarted svc) (andThen returnNow rest) s =
        (createJob svc env chat rootSyncDirectory frequency).callback s) := by
  have hcall : ∀ (rest : Run W M → Exec (Run W M)) (t : Run W M),
      andThen (logStarted svc) (andThen returnNow rest) t =
        Exec.returned { t with logged := t.logged ++ ["job started: " ++ svc.Now t.world] } := by
    intro rest t
    show (match logStarted svc t with
      | Exec.next s1 => andThen returnNow rest s1
      | Exec.returned s1 => Exec.returned s1
      | Exec.panic => Exec.panic) = _
    simp only [logStarted, andThen_returnNow]
  refine ⟨rfl, ?_, ?_, ?_⟩
  · exact hcall (syncBody svc env chat rootSyncDirectory) s
  · intro w
    exact hcall (syncBody svc env chat rootSyncDirectory) (fresh w)
  · intro rest
    rw [hcall rest s]
    exact (hcall (syncBody svc env chat rootSyncDirectory) s).symm

end cron

end Lominus
